import Mathlib

/-!
Verification development for the Tool-Call Gateway subsystem
(`backend/aci/mcp/routes/handlers/tools/execute_tool.py`,
`backend/aci/mcp/routes/handlers/tools_call.py`,
`backend/aci/common/db/crud/mcp_tool_call_logs.py`,
`backend/aci/common/schemas/mcp_tool_call_log.py`,
`backend/aci/control_plane/routes/logs.py`).

The Python source is shallowly embedded: pure functions become Lean
functions, the database and the MCP transport become explicit state that
is threaded through the definitions, raised exceptions become `Option` /
`Except` values, and `datetime` values become integer microsecond
timestamps.
-/

namespace Gateway

/-! ### Transport-level data (mcp.types / mcp.shared.exceptions)

`McpErrorData` embeds `mcp.types.ErrorData` as carried by
`mcp_exceptions.McpError`; `CallToolResult` stands for
`mcp.types.CallToolResult`, whose payload the gateway passes through
opaquely (modelled as a single string). -/

structure McpErrorData where
  code : Int
  message : String
  data : Option String := none
deriving DecidableEq

structure CallToolResult where
  content : String
deriving DecidableEq

/-- Outcome of one wire-level `call_tool` or of the whole forwarded call:
`_call_tool` in the source returns `CallToolResult | McpError` (errors are
returned as values, not raised, because of the async task group). -/
abbrev CallOutcome := Except McpErrorData CallToolResult

instance : DecidableEq CallOutcome := fun a b =>
  match a, b with
  | .ok x, .ok y =>
    if h : x = y then .isTrue (by rw [h]) else .isFalse (by simp [h])
  | .error x, .error y =>
    if h : x = y then .isTrue (by rw [h]) else .isFalse (by simp [h])
  | .ok _, .error _ => .isFalse (by simp)
  | .error _, .ok _ => .isFalse (by simp)

/-- The behavior of one transport connection (`ClientSession`), embedded as
two scripts consumed in order: `initQ` gives the outcome of each successive
`initialize()` (`none` = success, `some e` = raises `McpError e`), and
`callQ` the outcome of each successive `call_tool(...)` on the wire.
An exhausted script models a non-`McpError` exception (which `_call_tool`
does not catch), surfacing as `none` from the embedded function.
`sessionIdAfterCall` is what `get_session_id()` returns after the call in
`_forward_tool_call`. -/
structure Transport where
  initQ : List (Option McpErrorData)
  callQ : List CallOutcome
  sessionIdAfterCall : Option String := none
deriving DecidableEq

/-- One observable operation performed on the client session, recorded so
that theorems can count initializations and (re)tries. -/
inductive SessionOp where
  | initSession
  | callTool (name : String) (arguments : List (String × String))
deriving DecidableEq

/-- Whether a `SessionOp` is a tool call. -/
def SessionOp.isCall : SessionOp → Bool
  | .initSession => false
  | .callTool _ _ => true

/-- Embeds `_call_tool` (execute_tool.py lines 392-447): initialize the
session if needed and call the tool; on the reused-session path, an
`McpError` with code `32600` and message `"Session terminated"` triggers
one re-initialization followed by one retry of the same call; the retry's
or the re-initialization's own error is returned verbatim.  Returns the
outcome, the trace of session operations performed, and the remaining
transport script; `none` models a non-`McpError` exception escaping. -/
def call_tool (t : Transport) (needInit : Bool) (name : String)
    (arguments : List (String × String)) :
    Option (CallOutcome × List SessionOp × Transport) :=
  if needInit then
    match t.initQ with
    | [] => none
    | initRes :: iq =>
      match initRes with
      | some e => some (.error e, [.initSession], { t with initQ := iq })
      | none =>
        match t.callQ with
        | [] => none
        | r :: cq =>
          some (r, [.initSession, .callTool name arguments],
            { t with initQ := iq, callQ := cq })
  else
    match t.callQ with
    | [] => none
    | r :: cq =>
      match r with
      | .ok res => some (.ok res, [.callTool name arguments], { t with callQ := cq })
      | .error e =>
        if e.code == 32600 && e.message == "Session terminated" then
          match t.initQ with
          | [] => none
          | initRes :: iq =>
            match initRes with
            | some ie =>
              some (.error ie, [.callTool name arguments, .initSession],
                { t with initQ := iq, callQ := cq })
            | none =>
              match cq with
              | [] => none
              | r2 :: cq2 =>
                some (r2,
                  [.callTool name arguments, .initSession, .callTool name arguments],
                  { t with initQ := iq, callQ := cq2 })
        else
          some (.error e, [.callTool name arguments], { t with callQ := cq })

/-- The stale-session signature checked by `_call_tool`
(`e.error.code == 32600 and e.error.message == "Session terminated"`). -/
def staleSessionSignature (e : McpErrorData) : Bool :=
  e.code == 32600 && e.message == "Session terminated"

/-! ### Resolved entities (aci/common/db/sql_models.py, fields used by the
gateway; identifiers are embedded as strings) -/

inductive MCPServerTransportType where
  | STREAMABLE_HTTP
  | SSE
deriving DecidableEq

structure MCPServer where
  id : String
  name : String
  transport_type : MCPServerTransportType
  url : String
deriving DecidableEq

structure MCPTool where
  id : String
  name : String
  /-- `MCPToolMetadata.model_validate(mcp_tool.tool_metadata).canonical_tool_name`. -/
  canonical_tool_name : String
  mcp_server : MCPServer
deriving DecidableEq

structure MCPServerConfiguration where
  id : String
  name : String
  mcp_server_id : String
  all_tools_enabled : Bool
  enabled_tools : List String
deriving DecidableEq

structure MCPServerBundle where
  id : String
  organization_id : String
  user_id : String
  name : String
  mcp_server_configuration_ids : List String
deriving DecidableEq

/-- `MCPSession`: per-conversation session row; `external_mcp_sessions` maps
`str(mcp_server.id)` to the negotiated external session token. -/
structure MCPSessionState where
  id : String
  external_mcp_sessions : List (String × String)
deriving DecidableEq

/-- Python `dict.get` on the `external_mcp_sessions` map. -/
def lookupToken (m : List (String × String)) (serverId : String) : Option String :=
  match m.find? (fun p => p.1 == serverId) with
  | some p => some p.2
  | none => none

/-- Embeds `crud.mcp_sessions.update_session_external_mcp_session`: store
`tok` under `serverId`, replacing any prior value for that key. -/
def setToken (m : List (String × String)) (serverId tok : String) :
    List (String × String) :=
  match m with
  | [] => [(serverId, tok)]
  | p :: rest =>
    if p.1 == serverId then (serverId, tok) :: rest
    else p :: setToken rest serverId tok

/-- Embeds `_forward_tool_call` (execute_tool.py lines 335-389): read the
held external session token for the target server, run `_call_tool` with
`needInit = (existing token is None)`, and — on the streamable-HTTP
branch, after `_call_tool` returns (whether its value is a result or an
`McpError`) — record the transport's session id when it is non-null and
differs from the held token.  The SSE branch performs no token recording.
`none` models a non-`McpError` exception escaping from `_call_tool` (the
enclosing context managers then propagate it and nothing is recorded). -/
def forward_tool_call (name : String) (arguments : List (String × String))
    (mcp_session : MCPSessionState) (mcp_server : MCPServer) (t : Transport) :
    Option (CallOutcome × MCPSessionState × List SessionOp) :=
  let existing := lookupToken mcp_session.external_mcp_sessions mcp_server.id
  match mcp_server.transport_type with
  | .STREAMABLE_HTTP =>
    match call_tool t existing.isNone name arguments with
    | none => none
    | some (res, trace, t1) =>
      match t1.sessionIdAfterCall with
      | some newId =>
        if existing ≠ some newId then
          some (res,
            { mcp_session with
              external_mcp_sessions :=
                setToken mcp_session.external_mcp_sessions mcp_server.id newId },
            trace)
        else some (res, mcp_session, trace)
      | none => some (res, mcp_session, trace)
  | .SSE =>
    match call_tool t existing.isNone name arguments with
    | none => none
    | some (res, trace, _) => some (res, mcp_session, trace)

/-! ### JSON-RPC response envelope -/

/-- Modelled from the spec: the fixed gateway error code taxonomy of §7
(`JSONRPCErrorCode` lives in `aci/mcp/routes/jsonrpc.py`, which is not part
of the sources; `execute_tool.py` uses exactly these four symbolic codes). -/
inductive JSONRPCErrorCode where
  | INVALID_METHOD_PARAMS
  | INVALID_REQUEST
  | UNAUTHORIZED
  | INTERNAL_ERROR
deriving DecidableEq

/-- A response error code is either one of the gateway's fixed symbolic
codes or a downstream protocol error code passed straight through. -/
inductive RespErrorCode where
  | rpc (c : JSONRPCErrorCode)
  | passthrough (code : Int)
deriving DecidableEq

structure RespErrorData where
  code : RespErrorCode
  message : String
  data : Option String := none
deriving DecidableEq

inductive JSONRPCResponse where
  | success (id : Int) (result : CallToolResult)
  | error (id : Int) (error : RespErrorData)
deriving DecidableEq

/-- Whether a response is the `ToolNotEnabled` error envelope (the source
emits it with `JSONRPCErrorCode.UNAUTHORIZED`, and no other branch of the
pipeline uses that code). -/
def JSONRPCResponse.isToolNotEnabled : JSONRPCResponse → Bool
  | .error _ e => e.code == .rpc .UNAUTHORIZED
  | .success _ _ => false

/-! ### Incoming request (`jsonrpc_tools_call_request.params.arguments`) -/

/-- A raw JSON value arriving in `params.arguments`, at the granularity the
validation and logging fallback code distinguishes: a JSON string, a JSON
object (the tool arguments dict, embedded as string pairs), or anything
else (carried by its `json.dumps` rendering). -/
inductive RawValue where
  | str (s : String)
  | obj (fields : List (String × String))
  | other (dump : String)
deriving DecidableEq

/-- Embeds `json.dumps` of a raw value as recorded in the fallback logging
path; the exact rendering of objects is uninterpreted here (claims never
inspect it), only the string case matters to the source's branches. -/
def RawValue.dump : RawValue → String
  | .str s => "\"" ++ s ++ "\""
  | .obj fields => "\x7b" ++ String.intercalate "," (fields.map (fun p => p.1 ++ ":" ++ p.2)) ++ "\x7d"
  | .other d => d

/-- The `EXECUTE_TOOL` arguments dict: the two recognized keys plus a flag
recording whether any other key is present (`extra="forbid"` makes such a
key a validation error). -/
structure RawArguments where
  tool_name : Option RawValue
  tool_arguments : Option RawValue
  extra_fields : Bool
deriving DecidableEq

structure JSONRPCToolsCallRequest where
  id : Int
  arguments : RawArguments
deriving DecidableEq

/-- Embeds `ExecuteToolInputSchema.model_validate`: requires `tool_name` to
be a string, `tool_arguments` to be an object, and no extra fields
(`ConfigDict(extra="forbid")`); any other shape raises a validation error
(the pydantic message is abstracted to a fixed string). -/
def validateInput (ra : RawArguments) :
    Except String (String × List (String × String)) :=
  match ra.tool_name, ra.tool_arguments, ra.extra_fields with
  | some (.str n), some (.obj o), false => .ok (n, o)
  | _, _, _ => .error "validation error"

/-! ### Audit log record (`MCPToolCallLogCreate.model_construct()`:
every field starts unset, hence `Option` everywhere) -/

inductive MCPToolCallStatus where
  | SUCCESS
  | ERROR
deriving DecidableEq

/-- The serialized `result` field of the log record: either the dumped
error data or the dumped success result. -/
inductive LogResult where
  | err (e : RespErrorData)
  | ok (r : CallToolResult)
deriving DecidableEq

structure MCPToolCallLogData where
  organization_id : Option String := none
  user_id : Option String := none
  request_id : Option String := none
  session_id : Option String := none
  bundle_name : Option String := none
  bundle_id : Option String := none
  mcp_server_name : Option String := none
  mcp_server_id : Option String := none
  mcp_tool_name : Option String := none
  mcp_tool_id : Option String := none
  mcp_server_configuration_name : Option String := none
  mcp_server_configuration_id : Option String := none
  arguments : Option String := none
  result : Option LogResult := none
  status : Option MCPToolCallStatus := none
  via_execute_tool : Option Bool := none
  jsonrpc_payload : Option JSONRPCToolsCallRequest := none
  started_at : Option Int := none
  ended_at : Option Int := none
  duration_ms : Option Int := none
deriving DecidableEq

/-! ### The dispatch pipeline (`handle_execute_tool`) -/

/-- The read-only world the pipeline consults: the tool table
(`crud.mcp_tools.get_mcp_tool_by_name`), the configuration table
(`crud.mcp_server_configurations.get_mcp_server_configuration_by_id`),
whether credential resolution (`acm.get_auth_config` /
`acm.get_auth_credentials`, an external collaborator) succeeds, and the
transport script for the forwarded call. -/
structure ExecEnv where
  tools : List MCPTool
  configurations : List MCPServerConfiguration
  authOk : Bool
  transport : Transport
deriving DecidableEq

/-- Embeds `crud.mcp_tools.get_mcp_tool_by_name`. -/
def get_mcp_tool_by_name (tools : List MCPTool) (name : String) : Option MCPTool :=
  tools.find? (fun t => t.name == name)

/-- Embeds `crud.mcp_server_configurations.get_mcp_server_configuration_by_id`. -/
def get_mcp_server_configuration_by_id (configs : List MCPServerConfiguration)
    (cid : String) : Option MCPServerConfiguration :=
  configs.find? (fun c => c.id == cid)

/-- Embeds the configuration scan of `handle_execute_tool` (execute_tool.py
lines 170-190): walk the bundle's configuration-id list in order, skip ids
whose configuration row is missing (`continue`), and keep the first
configuration whose `mcp_server_id` matches the tool's server (`break`). -/
def findConfiguration (configs : List MCPServerConfiguration)
    (ids : List String) (serverId : String) : Option MCPServerConfiguration :=
  match ids with
  | [] => none
  | cid :: rest =>
    match get_mcp_server_configuration_by_id configs cid with
    | none => findConfiguration configs rest serverId
    | some c =>
      if c.mcp_server_id == serverId then some c
      else findConfiguration configs rest serverId

/-- Helper mirroring the repeated error-return pattern of
`handle_execute_tool`: record the error data into the log (`result` and
`status = ERROR`) and wrap it into a `JSONRPCErrorResponse`. -/
def errorReturn (reqId : Int) (log : MCPToolCallLogData) (e : RespErrorData) :
    JSONRPCResponse × MCPToolCallLogData :=
  (.error reqId e, { log with result := some (.err e), status := some .ERROR })

/-- Embeds `handle_execute_tool` (execute_tool.py lines 95-332), the
undecorated body: populate the log skeleton, validate the input (with the
best-effort tool-name/arguments recovery on failure), resolve the tool, the
owning server and the bundle's configuration, check enablement, resolve
credentials, and forward the call, turning every failure into the matching
error envelope.  Returns the response, the log record, and the session
state after any token recording done by `_forward_tool_call`. -/
def handle_execute_tool (env : ExecEnv) (mcp_session : MCPSessionState)
    (mcp_server_bundle : MCPServerBundle) (req : JSONRPCToolsCallRequest)
    (requestIdCtx : String) :
    JSONRPCResponse × MCPToolCallLogData × MCPSessionState :=
  let log0 : MCPToolCallLogData :=
    { organization_id := some mcp_server_bundle.organization_id
      user_id := some mcp_server_bundle.user_id
      request_id := some requestIdCtx
      session_id := some mcp_session.id
      bundle_name := some mcp_server_bundle.name
      bundle_id := some mcp_server_bundle.id
      via_execute_tool := some true
      jsonrpc_payload := some req }
  match validateInput req.arguments with
  | .error msg =>
    let log1 :=
      match req.arguments.tool_name with
      | none => log0
      | some (.str s) => { log0 with mcp_tool_name := some s }
      | some v => { log0 with mcp_tool_name := some v.dump }
    let log2 :=
      match req.arguments.tool_arguments with
      | none => log1
      | some v => { log1 with arguments := some v.dump }
    let e : RespErrorData := { code := .rpc .INVALID_METHOD_PARAMS, message := msg }
    let (resp, log3) := errorReturn req.id log2 e
    (resp, log3, mcp_session)
  | .ok (tool_name, tool_arguments) =>
    let log1 := { log0 with
      mcp_tool_name := some tool_name
      arguments := some (RawValue.dump (.obj tool_arguments)) }
    match get_mcp_tool_by_name env.tools tool_name with
    | none =>
      let e : RespErrorData :=
        { code := .rpc .INVALID_METHOD_PARAMS
          message := "Tool not found, tool_name=" ++ tool_name }
      let (resp, log2) := errorReturn req.id log1 e
      (resp, log2, mcp_session)
    | some mcp_tool =>
      let mcp_server := mcp_tool.mcp_server
      let log2 := { log1 with
        mcp_server_name := some mcp_server.name
        mcp_server_id := some mcp_server.id
        mcp_tool_id := some mcp_tool.id }
      match findConfiguration env.configurations
          mcp_server_bundle.mcp_server_configuration_ids mcp_server.id with
      | none =>
        let e : RespErrorData :=
          { code := .rpc .INVALID_REQUEST
            message := "MCP server not configured, mcp_server_name=" ++ mcp_server.name }
        let (resp, log3) := errorReturn req.id log2 e
        (resp, log3, mcp_session)
      | some mcp_server_configuration =>
        let log3 := { log2 with
          mcp_server_configuration_name := some mcp_server_configuration.name
          mcp_server_configuration_id := some mcp_server_configuration.id }
        if ¬mcp_server_configuration.all_tools_enabled ∧
            mcp_tool.id ∉ mcp_server_configuration.enabled_tools then
          let e : RespErrorData :=
            { code := .rpc .UNAUTHORIZED
              message := "MCP tool not enabled in mcp server configuration, mcp_tool_name="
                ++ mcp_tool.name }
          let (resp, log4) := errorReturn req.id log3 e
          (resp, log4, mcp_session)
        else
          if ¬env.authOk then
            let e : RespErrorData :=
              { code := .rpc .INTERNAL_ERROR, message := "Internal error" }
            let (resp, log4) := errorReturn req.id log3 e
            (resp, log4, mcp_session)
          else
            match forward_tool_call mcp_tool.canonical_tool_name tool_arguments
                mcp_session mcp_server env.transport with
            | none =>
              let e : RespErrorData :=
                { code := .rpc .INTERNAL_ERROR
                  message := "Unknown error forwarding tool call" }
              let (resp, log4) := errorReturn req.id log3 e
              (resp, log4, mcp_session)
            | some (.error me, session1, _) =>
              let e : RespErrorData :=
                { code := .passthrough me.code, message := me.message, data := me.data }
              let (resp, log4) := errorReturn req.id log3 e
              (resp, log4, session1)
            | some (.ok result, session1, _) =>
              (.success req.id result,
                { log3 with result := some (.ok result), status := some .SUCCESS },
                session1)

/-- Embeds the `track_duration` decorator (execute_tool.py lines 42-67):
wall-clock times are integer microsecond timestamps taken at entry
(`started`) and exit (`ended`); the decorator writes `started_at`,
`ended_at` and `duration_ms = int(elapsed_seconds * 1000)` (truncated
toward zero, hence `Int.tdiv` of the microsecond difference by 1000) into
the log component of the returned tuple. -/
def track_duration (started ended : Int)
    (r : JSONRPCResponse × MCPToolCallLogData × MCPSessionState) :
    JSONRPCResponse × MCPToolCallLogData × MCPSessionState :=
  (r.1,
    { r.2.1 with
      duration_ms := some ((ended - started).tdiv 1000)
      ended_at := some ended
      started_at := some started },
    r.2.2)

/-! ### Dispatcher and best-effort log write (`tools_call.py`) -/

/-- The audit log table together with a count of attempted inserts. -/
structure LogStore where
  entries : List MCPToolCallLogData
  attempts : Nat
deriving DecidableEq

/-- Embeds `crud.mcp_tool_call_logs.create` as invoked through the error
boundary: `insertFails` says whether the insert raises (in which case the
exception is caught and logged and the table is unchanged); either way one
insert attempt is made. -/
def create_log (store : LogStore) (insertFails : Bool)
    (log : MCPToolCallLogData) : LogStore :=
  { entries := if insertFails then store.entries else store.entries ++ [log]
    attempts := store.attempts + 1 }

/-- Embeds `_create_tool_call_log` (tools_call.py lines 49-62): the
re-validation of the constructed record may raise (`validateFails`), but
the exception is caught and logged and control falls through to the insert
attempt, whose own failure is also caught; nothing propagates to the
caller. -/
def create_tool_call_log (store : LogStore) (validateFails insertFails : Bool)
    (log : MCPToolCallLogData) : LogStore :=
  let _ := validateFails
  create_log store insertFails log

/-- Embeds the `EXECUTE_TOOL` branch of `handle_tools_call` (tools_call.py
lines 31-37): run the duration-tracked pipeline, attempt the audit-log
write, and return the pipeline's response. -/
def handle_tools_call_execute (env : ExecEnv) (mcp_session : MCPSessionState)
    (mcp_server_bundle : MCPServerBundle) (req : JSONRPCToolsCallRequest)
    (requestIdCtx : String) (started ended : Int) (store : LogStore)
    (validateFails insertFails : Bool) : JSONRPCResponse × LogStore :=
  let r := track_duration started ended
    (handle_execute_tool env mcp_session mcp_server_bundle req requestIdCtx)
  (r.1, create_tool_call_log store validateFails insertFails r.2.1)

/-! ### Claims about the stale-session retry (`_call_tool`) -/

/-- C1 counterexample: a forwarded call on a previously held session fails
with the stale-session signature, but the re-initialization itself fails;
the code performs no retry at all (the trace contains exactly one
`callTool` operation) and surfaces the initialization error, not a retry
outcome — so "exactly one retry is performed and the final outcome equals
the retry's outcome" is false for this input. -/
theorem call_tool_stale_recovery_counterexample :
    staleSessionSignature ⟨32600, "Session terminated", none⟩ = true ∧
    call_tool
        ⟨[some ⟨1, "init failed", none⟩],
         [.error ⟨32600, "Session terminated", none⟩], none⟩
        false "t" [] =
      some (.error ⟨1, "init failed", none⟩,
        [.callTool "t" [], .initSession], ⟨[], [], none⟩) ∧
    ([SessionOp.callTool "t" [], .initSession].countP (fun op => op.isCall)) = 1 := by
  refine ⟨rfl, rfl, rfl⟩

/-- C1 (amended): on the previously-held-token path
(`needInit = false`), if the first call attempt fails with the
stale-session signature then exactly one re-initialization is attempted;
when it succeeds, exactly one retry of the same call (same name, same
arguments) is performed and the final outcome is the retry's outcome
verbatim, with no further retries; when the re-initialization fails, its
error is surfaced with no retry.  A transport error with any other
code/message is returned immediately with no re-initialization and no
retry. -/
theorem call_tool_stale_recovery (t : Transport) (name : String)
    (arguments : List (String × String)) (e : McpErrorData)
    (cq : List CallOutcome) (hcall : t.callQ = .error e :: cq) :
    (staleSessionSignature e = true →
      (∀ iq r2 cq2, t.initQ = none :: iq → cq = r2 :: cq2 →
        call_tool t false name arguments =
          some (r2,
            [.callTool name arguments, .initSession, .callTool name arguments],
            { t with initQ := iq, callQ := cq2 })) ∧
      (∀ ie iq, t.initQ = some ie :: iq →
        call_tool t false name arguments =
          some (.error ie, [.callTool name arguments, .initSession],
            { t with initQ := iq, callQ := cq }))) ∧
    (staleSessionSignature e = false →
      call_tool t false name arguments =
        some (.error e, [.callTool name arguments], { t with callQ := cq })) := by
  constructor
  · intro hsig
    have hsig' : (e.code == 32600 && e.message == "Session terminated") = true := hsig
    constructor
    · intro iq r2 cq2 hinit hcq
      subst hcq
      simp [call_tool, hcall, hinit, hsig']
    · intro ie iq hinit
      simp [call_tool, hcall, hinit, hsig']
  · intro hsig
    have hsig' : (e.code == 32600 && e.message == "Session terminated") = false := hsig
    simp [call_tool, hcall, hsig']

/-- Witness for `call_tool_stale_recovery`: concrete stale first attempt,
successful re-initialization, successful retry. -/
theorem call_tool_stale_recovery_witness :
    call_tool
        ⟨[none], [.error ⟨32600, "Session terminated", none⟩, .ok ⟨"ok"⟩], none⟩
        false "t" [] =
      some (.ok ⟨"ok"⟩,
        [.callTool "t" [], .initSession, .callTool "t" []], ⟨[], [], none⟩) :=
  ((call_tool_stale_recovery
      ⟨[none], [.error ⟨32600, "Session terminated", none⟩, .ok ⟨"ok"⟩], none⟩
      "t" [] ⟨32600, "Session terminated", none⟩ [.ok ⟨"ok"⟩] rfl).1 rfl).1
    [] (.ok ⟨"ok"⟩) [] rfl rfl

/-- C10: on the fresh-session path (no previously held token, so the
session is initialized during the call), a failing tool call is returned
as-is — the trace holds exactly the fresh initialization and the single
call attempt, with no re-initialization and no retry — for every error,
including one carrying the stale-session signature. -/
theorem call_tool_fresh_no_retry (t : Transport) (name : String)
    (arguments : List (String × String)) (e : McpErrorData)
    (iq : List (Option McpErrorData)) (cq : List CallOutcome)
    (hinit : t.initQ = none :: iq) (hcall : t.callQ = .error e :: cq) :
    call_tool t true name arguments =
      some (.error e, [.initSession, .callTool name arguments],
        { t with initQ := iq, callQ := cq }) := by
  simp [call_tool, hinit, hcall]

/-- Witness for `call_tool_fresh_no_retry`: the error carries the
stale-session signature, yet it is surfaced without any retry. -/
theorem call_tool_fresh_no_retry_witness :
    call_tool
        ⟨[none], [.error ⟨32600, "Session terminated", none⟩, .ok ⟨"r"⟩], none⟩
        true "t" [] =
      some (.error ⟨32600, "Session terminated", none⟩,
        [.initSession, .callTool "t" []], ⟨[], [.ok ⟨"r"⟩], none⟩) :=
  call_tool_fresh_no_retry _ "t" [] _ _ _ rfl rfl

/-! ### Claims about session-token recording (`_forward_tool_call`) -/

/-- C7 counterexample: on the streamable-HTTP path the forwarded tool call
fails (the outcome is an `McpError` value), yet because `_call_tool`
returned normally and the transport yielded a session id differing from
the held token, the session's token map is updated — refuting "updated
only after a successful forward". -/
theorem forward_token_recording_counterexample :
    forward_tool_call "t" [] ⟨"sess", [("srv", "tok1")]⟩
        ⟨"srv", "S", .STREAMABLE_HTTP, "u"⟩
        ⟨[], [.error ⟨5, "boom", none⟩], some "tok2"⟩ =
      some (.error ⟨5, "boom", none⟩, ⟨"sess", [("srv", "tok2")]⟩,
        [.callTool "t" []]) ∧
    [("srv", "tok2")] ≠ [("srv", "tok1")] := by
  refine ⟨by decide, by decide⟩

/-- C7 (amended): on the streamable-HTTP path the per-session token map is
updated — the transport's session id recorded against the target service,
replacing any prior value — exactly when `_call_tool` returns (whether its
value is a success result or an `McpError`) and the transport's session id
is non-null and differs from the held token.  When the transport returns
no session id or the same token, the map is unchanged; when `_call_tool`
raises (exhausted script), nothing is recorded. -/
theorem forward_token_recording (name : String)
    (arguments : List (String × String)) (sess : MCPSessionState)
    (server : MCPServer) (t : Transport)
    (hstream : server.transport_type = .STREAMABLE_HTTP) :
    (call_tool t (lookupToken sess.external_mcp_sessions server.id).isNone
        name arguments = none →
      forward_tool_call name arguments sess server t = none) ∧
    (∀ res trace t1,
      call_tool t (lookupToken sess.external_mcp_sessions server.id).isNone
          name arguments = some (res, trace, t1) →
      (∀ newId, t1.sessionIdAfterCall = some newId →
        lookupToken sess.external_mcp_sessions server.id ≠ some newId →
        forward_tool_call name arguments sess server t =
          some (res,
            { sess with external_mcp_sessions :=
                setToken sess.external_mcp_sessions server.id newId },
            trace)) ∧
      (∀ newId, t1.sessionIdAfterCall = some newId →
        lookupToken sess.external_mcp_sessions server.id = some newId →
        forward_tool_call name arguments sess server t =
          some (res, sess, trace)) ∧
      (t1.sessionIdAfterCall = none →
        forward_tool_call name arguments sess server t =
          some (res, sess, trace))) := by
  constructor
  · intro hnone
    simp [forward_tool_call, hstream, hnone]
  · intro res trace t1 hrun
    refine ⟨?_, ?_, ?_⟩
    · intro newId hnew hne
      simp [forward_tool_call, hstream, hrun, hnew, hne]
    · intro newId hnew heq
      have hrun' : call_tool t false name arguments = some (res, trace, t1) := by
        simpa [heq] using hrun
      simp [forward_tool_call, hstream, heq, hrun', hnew]
    · intro hnew
      simp [forward_tool_call, hstream, hrun, hnew]

/-- Witness for `forward_token_recording`: held token `tok1`, successful
call, transport reports `tok2`; the map is updated to `tok2`. -/
theorem forward_token_recording_witness :
    forward_tool_call "t" [] ⟨"sess", [("srv", "tok1")]⟩
        ⟨"srv", "S", .STREAMABLE_HTTP, "u"⟩
        ⟨[], [.ok ⟨"r"⟩], some "tok2"⟩ =
      some (.ok ⟨"r"⟩, ⟨"sess", [("srv", "tok2")]⟩, [.callTool "t" []]) :=
  ((forward_token_recording "t" [] ⟨"sess", [("srv", "tok1")]⟩
      ⟨"srv", "S", .STREAMABLE_HTTP, "u"⟩
      ⟨[], [.ok ⟨"r"⟩], some "tok2"⟩ rfl).2
    (.ok ⟨"r"⟩) [.callTool "t" []] ⟨[], [], some "tok2"⟩ rfl).1 "tok2" rfl
    (by decide)

/-! ### Claim about the enablement check (`handle_execute_tool`) -/

/-- C2: when resolution finds the tool and a configuration for its owning
service, then: if `all_tools_enabled` is false and the tool's id is not in
`enabled_tools`, the call returns the `ToolNotEnabled` error envelope
(code `UNAUTHORIZED`) with an `ERROR` audit record, the session is
untouched, and the outcome is the same for every credential-resolution
result and every transport script (credentials and transport are never
reached); if `all_tools_enabled` is true or the tool's id is in
`enabled_tools`, no `ToolNotEnabled` error is produced. -/
theorem enablement_check (env : ExecEnv) (sess : MCPSessionState)
    (bundle : MCPServerBundle) (req : JSONRPCToolsCallRequest) (rid : String)
    (tool_name : String) (tool_arguments : List (String × String))
    (hval : validateInput req.arguments = .ok (tool_name, tool_arguments))
    (mcp_tool : MCPTool)
    (htool : get_mcp_tool_by_name env.tools tool_name = some mcp_tool)
    (config : MCPServerConfiguration)
    (hconfig : findConfiguration env.configurations
      bundle.mcp_server_configuration_ids mcp_tool.mcp_server.id = some config) :
    (config.all_tools_enabled = false → mcp_tool.id ∉ config.enabled_tools →
      (handle_execute_tool env sess bundle req rid).1 =
        .error req.id
          ⟨.rpc .UNAUTHORIZED,
           "MCP tool not enabled in mcp server configuration, mcp_tool_name="
             ++ mcp_tool.name, none⟩ ∧
      (handle_execute_tool env sess bundle req rid).2.1.status = some .ERROR ∧
      (handle_execute_tool env sess bundle req rid).2.2 = sess ∧
      (∀ authOk1 transport1,
        handle_execute_tool ⟨env.tools, env.configurations, authOk1, transport1⟩
            sess bundle req rid =
          handle_execute_tool env sess bundle req rid)) ∧
    ((config.all_tools_enabled = true ∨ mcp_tool.id ∈ config.enabled_tools) →
      (handle_execute_tool env sess bundle req rid).1.isToolNotEnabled = false) := by
  constructor
  · intro hAll hMem
    refine ⟨?_, ?_, ?_, ?_⟩
    · simp [handle_execute_tool, hval, htool, hconfig, errorReturn, hAll, hMem]
    · simp [handle_execute_tool, hval, htool, hconfig, errorReturn, hAll, hMem]
    · simp [handle_execute_tool, hval, htool, hconfig, errorReturn, hAll, hMem]
    · intro authOk1 transport1
      simp [handle_execute_tool, hval, htool, hconfig, errorReturn, hAll, hMem]
  · intro h
    have hcond : ¬(¬config.all_tools_enabled = true ∧
        mcp_tool.id ∉ config.enabled_tools) := by
      rcases h with h | h <;> simp [h]
    simp only [handle_execute_tool, hval, htool, hconfig]
    simp only [if_neg hcond]
    by_cases hA : env.authOk
    · simp only [hA, not_true_eq_false, if_false]
      rcases hF : forward_tool_call mcp_tool.canonical_tool_name tool_arguments
          sess mcp_tool.mcp_server env.transport with _ | ⟨res, s1, tr⟩
      · simp [hF, errorReturn, JSONRPCResponse.isToolNotEnabled]
      · cases res with
        | ok r => simp [hF, errorReturn, JSONRPCResponse.isToolNotEnabled]
        | error me => simp [hF, errorReturn, JSONRPCResponse.isToolNotEnabled]
    · simp [hA, errorReturn, JSONRPCResponse.isToolNotEnabled]

/-- Witness for `enablement_check`: a one-tool world where the
configuration disables all tools; the call returns the `ToolNotEnabled`
envelope. -/
theorem enablement_check_witness :
    (handle_execute_tool
        ⟨[⟨"tid", "T", "t", ⟨"srv", "S", .STREAMABLE_HTTP, "u"⟩⟩],
          [⟨"cid", "C", "srv", false, []⟩], true, ⟨[], [], none⟩⟩
        ⟨"sess", []⟩ ⟨"bid", "org", "usr", "B", ["cid"]⟩
        ⟨7, ⟨some (.str "T"), some (.obj []), false⟩⟩ "req").1 =
      .error 7
        ⟨.rpc .UNAUTHORIZED,
         "MCP tool not enabled in mcp server configuration, mcp_tool_name=" ++ "T",
         none⟩ :=
  ((enablement_check
      ⟨[⟨"tid", "T", "t", ⟨"srv", "S", .STREAMABLE_HTTP, "u"⟩⟩],
        [⟨"cid", "C", "srv", false, []⟩], true, ⟨[], [], none⟩⟩
      ⟨"sess", []⟩ ⟨"bid", "org", "usr", "B", ["cid"]⟩
      ⟨7, ⟨some (.str "T"), some (.obj []), false⟩⟩ "req"
      "T" [] rfl ⟨"tid", "T", "t", ⟨"srv", "S", .STREAMABLE_HTTP, "u"⟩⟩ rfl
      ⟨"cid", "C", "srv", false, []⟩ rfl).1 rfl (by decide)).1

/-! ### Claim about configuration resolution (`handle_execute_tool`) -/

/-- C6 counterexample: a bundle listing two configurations both owned by
the tool's target service; resolution selects the first one instead of
reporting the match as ambiguous (it has no ambiguity outcome at all). -/
theorem resolution_ambiguity_counterexample :
    findConfiguration
        [⟨"a", "CA", "srv", true, []⟩, ⟨"b", "CB", "srv", true, []⟩]
        ["a", "b"] "srv" =
      some ⟨"a", "CA", "srv", true, []⟩ ∧
    (⟨"b", "CB", "srv", true, []⟩ : MCPServerConfiguration).mcp_server_id = "srv" ∧
    (⟨"a", "CA", "srv", true, []⟩ : MCPServerConfiguration) ≠
      ⟨"b", "CB", "srv", true, []⟩ := by
  refine ⟨by decide, rfl, by decide⟩

/-- C6 (amended): resolution is first-match-wins over the bundle's
configuration-id list — if every id before `cid` either has no
configuration row or resolves to a configuration owned by another service,
and `cid` resolves to a configuration owned by the tool's service, that
configuration is selected (even if later ids also match, with no ambiguity
error); and when no id in the list resolves to a configuration owned by
the service, resolution returns none and the call returns the
`ServiceNotConfigured` error envelope. -/
theorem resolution_first_match_wins (configs : List MCPServerConfiguration)
    (serverId : String) :
    (∀ pre cid post c,
      (∀ cid1 ∈ pre, ∀ c1,
        get_mcp_server_configuration_by_id configs cid1 = some c1 →
        c1.mcp_server_id ≠ serverId) →
      get_mcp_server_configuration_by_id configs cid = some c →
      c.mcp_server_id = serverId →
      findConfiguration configs (pre ++ cid :: post) serverId = some c) ∧
    (∀ ids,
      (∀ cid ∈ ids, ∀ c,
        get_mcp_server_configuration_by_id configs cid = some c →
        c.mcp_server_id ≠ serverId) →
      findConfiguration configs ids serverId = none) ∧
    (∀ env sess bundle req rid tool_name tool_arguments mcp_tool,
      validateInput req.arguments =
        Except.ok (tool_name, tool_arguments) →
      get_mcp_tool_by_name (ExecEnv.tools env) tool_name = some mcp_tool →
      ExecEnv.configurations env = configs →
      mcp_tool.mcp_server.id = serverId →
      findConfiguration configs bundle.mcp_server_configuration_ids serverId =
        none →
      (handle_execute_tool env sess bundle req rid).1 =
        .error req.id
          ⟨.rpc .INVALID_REQUEST,
           "MCP server not configured, mcp_server_name=" ++ mcp_tool.mcp_server.name,
           none⟩) := by
  refine ⟨?_, ?_, ?_⟩
  · intro pre
    induction pre with
    | nil =>
      intro cid post c _ hcid hmatch
      simp [findConfiguration, hcid, hmatch]
    | cons p rest ih =>
      intro cid post c hpre hcid hmatch
      have hp := hpre p (by simp)
      cases hget : get_mcp_server_configuration_by_id configs p with
      | none =>
        simpa [findConfiguration, hget] using
          ih cid post c (fun cid1 h1 => hpre cid1 (by simp [h1])) hcid hmatch
      | some c1 =>
        have hne : c1.mcp_server_id ≠ serverId := hp c1 hget
        have : (c1.mcp_server_id == serverId) = false := by
          simpa using hne
        simpa [findConfiguration, hget, this] using
          ih cid post c (fun cid1 h1 => hpre cid1 (by simp [h1])) hcid hmatch
  · intro ids
    induction ids with
    | nil => intro _; rfl
    | cons p rest ih =>
      intro hall
      have hp := hall p (by simp)
      cases hget : get_mcp_server_configuration_by_id configs p with
      | none =>
        simpa [findConfiguration, hget] using
          ih (fun cid h1 => hall cid (by simp [h1]))
      | some c1 =>
        have hne : c1.mcp_server_id ≠ serverId := hp c1 hget
        have : (c1.mcp_server_id == serverId) = false := by
          simpa using hne
        simpa [findConfiguration, hget, this] using
          ih (fun cid h1 => hall cid (by simp [h1]))
  · intro env sess bundle req rid tool_name tool_arguments mcp_tool hval htool
      hcfgs hsid hnone
    subst hcfgs hsid
    simp [handle_execute_tool, hval, htool, hnone, errorReturn]

/-- Witness for `resolution_first_match_wins`: the first listed
configuration belongs to another service, the second matches and is
selected; and a bundle with no matching configuration yields the
`ServiceNotConfigured` envelope. -/
theorem resolution_first_match_wins_witness :
    findConfiguration
        [⟨"a", "CA", "other", true, []⟩, ⟨"b", "CB", "srv", true, []⟩]
        ["a", "b"] "srv" =
      some ⟨"b", "CB", "srv", true, []⟩ :=
  (resolution_first_match_wins
      [⟨"a", "CA", "other", true, []⟩, ⟨"b", "CB", "srv", true, []⟩] "srv").1
    ["a"] "b" [] ⟨"b", "CB", "srv", true, []⟩ (by decide) (by decide) rfl

/-! ### Claim about duration tracking (`track_duration`) -/

/-- C8: for every dispatch — whatever the outcome, including validation
failures and failures before resolution completes — the audit record
emerging from the duration-tracking wrapper has `started_at`, `ended_at`
and `duration_ms` populated, with `started_at` the entry time, `ended_at`
the exit time (never earlier than `started_at` for a monotone clock), and
`duration_ms` the elapsed time between entry and exit in milliseconds. -/
theorem dispatch_duration_always_populated (env : ExecEnv)
    (sess : MCPSessionState) (bundle : MCPServerBundle)
    (req : JSONRPCToolsCallRequest) (rid : String) (started ended : Int)
    (hclock : started ≤ ended) :
    (track_duration started ended
        (handle_execute_tool env sess bundle req rid)).2.1.started_at =
      some started ∧
    (track_duration started ended
        (handle_execute_tool env sess bundle req rid)).2.1.ended_at =
      some ended ∧
    (track_duration started ended
        (handle_execute_tool env sess bundle req rid)).2.1.duration_ms =
      some ((ended - started).tdiv 1000) ∧
    (∀ s e,
      (track_duration started ended
          (handle_execute_tool env sess bundle req rid)).2.1.started_at = some s →
      (track_duration started ended
          (handle_execute_tool env sess bundle req rid)).2.1.ended_at = some e →
      s ≤ e) ∧
    0 ≤ (ended - started).tdiv 1000 := by
  refine ⟨rfl, rfl, rfl, ?_, ?_⟩
  · intro s e hs he
    simp only [track_duration, Option.some.injEq] at hs he
    omega
  · exact Int.tdiv_nonneg (by omega) (by norm_num)

/-- Witness for `dispatch_duration_always_populated`: a dispatch that
fails validation (extra field present) still gets its timing fields
populated. -/
theorem dispatch_duration_always_populated_witness :
    (track_duration 100 2600
        (handle_execute_tool ⟨[], [], true, ⟨[], [], none⟩⟩ ⟨"sess", []⟩
          ⟨"bid", "org", "usr", "B", []⟩
          ⟨7, ⟨some (.str "T"), some (.obj []), true⟩⟩ "req")).2.1.started_at =
      some 100 ∧
    (track_duration 100 2600
        (handle_execute_tool ⟨[], [], true, ⟨[], [], none⟩⟩ ⟨"sess", []⟩
          ⟨"bid", "org", "usr", "B", []⟩
          ⟨7, ⟨some (.str "T"), some (.obj []), true⟩⟩ "req")).2.1.duration_ms =
      some 2 :=
  ⟨(dispatch_duration_always_populated ⟨[], [], true, ⟨[], [], none⟩⟩
      ⟨"sess", []⟩ ⟨"bid", "org", "usr", "B", []⟩
      ⟨7, ⟨some (.str "T"), some (.obj []), true⟩⟩ "req" 100 2600
      (by norm_num)).1,
    (dispatch_duration_always_populated ⟨[], [], true, ⟨[], [], none⟩⟩
      ⟨"sess", []⟩ ⟨"bid", "org", "usr", "B", []⟩
      ⟨7, ⟨some (.str "T"), some (.obj []), true⟩⟩ "req" 100 2600
      (by norm_num)).2.2.1⟩

/-! ### Claim about the best-effort audit-log write (`tools_call.py`) -/

/-- C9: the response returned by the dispatcher is exactly the one the
pipeline computed, independently of the audit-log write — whether the
record re-validation or the insert raises (both are caught), the response
is unchanged — and exactly one audit-record write is attempted per
dispatch. -/
theorem dispatch_response_independent_of_log_write (env : ExecEnv)
    (sess : MCPSessionState) (bundle : MCPServerBundle)
    (req : JSONRPCToolsCallRequest) (rid : String) (started ended : Int)
    (store : LogStore) (validateFails insertFails : Bool) :
    (handle_tools_call_execute env sess bundle req rid started ended store
        validateFails insertFails).1 =
      (handle_execute_tool env sess bundle req rid).1 ∧
    (handle_tools_call_execute env sess bundle req rid started ended store
        validateFails insertFails).2.attempts = store.attempts + 1 := by
  exact ⟨rfl, rfl⟩

/-! ### Audit log rows and the paginated query
(`aci/common/db/crud/mcp_tool_call_logs.py` and
`aci/control_plane/routes/logs.py`).

A stored `MCPToolCallLog` row is embedded with the columns the query
touches; `started_at` is an integer microsecond timestamp and `id` a
natural number standing for the time-sortable UUID primary key (ids are
unique across rows).  The database table is a `List` of rows; the
`SELECT ... WHERE ... ORDER BY ... LIMIT` statement is embedded as
filtering, sorting with `List.insertionSort`, and `List.take`. -/

structure MCPToolCallLog where
  id : Nat
  organization_id : String
  user_id : String
  mcp_tool_name : Option String
  started_at : Int
deriving DecidableEq

/-- Cursor payload (`MCPToolCallLogCursor`): `(started_at, id)` of the last
row of the previous page. -/
structure LogCursor where
  started_at : Int
  id : Nat
deriving DecidableEq

def logCursorOf (e : MCPToolCallLog) : LogCursor :=
  ⟨e.started_at, e.id⟩

/-- The cursor WHERE clause of `_get`:
`started_at < cursor.started_at OR (started_at = cursor.started_at AND id < cursor.id)`. -/
def cursorBefore (e : MCPToolCallLog) (c : LogCursor) : Bool :=
  e.started_at < c.started_at ||
    (e.started_at == c.started_at && e.id < c.id)

/-- The `ORDER BY started_at DESC, id DESC` comparison: `a` may precede `b`
in the output. -/
def descLe (a b : MCPToolCallLog) : Prop :=
  b.started_at < a.started_at ∨
    (b.started_at = a.started_at ∧ b.id ≤ a.id)

/-- Strict version of `descLe`: `a` strictly precedes `b` in the
`(started_at DESC, id DESC)` order. -/
def descLt (a b : MCPToolCallLog) : Prop :=
  b.started_at < a.started_at ∨
    (b.started_at = a.started_at ∧ b.id < a.id)

instance : DecidableRel descLe := fun a b => by
  unfold descLe; exact inferInstance

instance : DecidableRel descLt := fun a b => by
  unfold descLt; exact inferInstance

instance : IsTrans MCPToolCallLog descLe where
  trans a b c hab hbc := by
    rcases hab with h | ⟨h1, h2⟩ <;> rcases hbc with g | ⟨g1, g2⟩ <;>
      unfold descLe <;> omega

instance : IsTotal MCPToolCallLog descLe where
  total a b := by
    unfold descLe; omega

instance : IsTrans MCPToolCallLog descLt where
  trans a b c hab hbc := by
    rcases hab with h | ⟨h1, h2⟩ <;> rcases hbc with g | ⟨g1, g2⟩ <;>
      unfold descLt <;> omega

instance : IsAntisymm MCPToolCallLog descLt where
  antisymm a b hab hba := by
    rcases hab with h | ⟨h1, h2⟩ <;> rcases hba with g | ⟨g1, g2⟩ <;> omega

/-- The `ilike` partial match of `_get`: the search text has its pattern
wildcards escaped before being wrapped in `%...%`, so the semantics is a
case-insensitive literal-substring test; a row with a NULL tool name never
matches (SQL three-valued logic drops it). -/
def ilikeContains (v : Option String) (pat : String) : Bool :=
  match v with
  | none => false
  | some s => decide (pat.toLower.data <:+: s.toLower.data)

/-- The optional WHERE clauses of `_get` other than the cursor, in source
order: organization scope, user scope, tool-name partial match (skipped
for an empty pattern, Python falsiness), and the inclusive `started_at`
window. -/
def matchesFilters (organization_id user_id : Option String)
    (mcp_tool_name : Option String) (start_time end_time : Option Int)
    (e : MCPToolCallLog) : Bool :=
  (match organization_id with
   | some o => e.organization_id == o
   | none => true) &&
  (match user_id with
   | some u => e.user_id == u
   | none => true) &&
  (match mcp_tool_name with
   | some pat => if pat.isEmpty then true else ilikeContains e.mcp_tool_name pat
   | none => true) &&
  (match start_time with
   | some st => decide (st ≤ e.started_at)
   | none => true) &&
  (match end_time with
   | some et => decide (e.started_at ≤ et)
   | none => true)

/-- Embeds `_get` (mcp_tool_call_logs.py lines 54-110): apply the optional
filters, the cursor predicate, the `(started_at DESC, id DESC)` ordering
and `LIMIT limit + 1`; if more than `limit` rows come back the page is
rows `[0, limit)` and the next-cursor row is row `limit - 1`, otherwise
all rows are returned with no next-cursor row. -/
def logsGet (db : List MCPToolCallLog) (limit : Nat)
    (cursor : Option LogCursor) (mcp_tool_name : Option String)
    (start_time end_time : Option Int)
    (organization_id user_id : Option String) :
    List MCPToolCallLog × Option MCPToolCallLog :=
  let filtered := db.filter
    (matchesFilters organization_id user_id mcp_tool_name start_time end_time)
  let afterCursor :=
    match cursor with
    | some c => filtered.filter (fun e => cursorBefore e c)
    | none => filtered
  let sorted := List.insertionSort descLe afterCursor
  let results := sorted.take (limit + 1)
  if limit < results.length then (results.take limit, results[limit - 1]?)
  else (results, none)

/-- Requesting pages repeatedly, starting from a given cursor and feeding
each page's next cursor into the next request, until no next cursor is
returned — the iteration the pagination-completeness property quantifies
over.  `fuel` bounds the number of rounds (enough fuel is supplied in the
theorems). -/
def paginate (fuel : Nat) (db : List MCPToolCallLog) (limit : Nat)
    (mcp_tool_name : Option String) (start_time end_time : Option Int)
    (organization_id user_id : Option String)
    (cursor : Option LogCursor) : List MCPToolCallLog :=
  match fuel with
  | 0 => []
  | fuel + 1 =>
    let r := logsGet db limit cursor mcp_tool_name start_time end_time
      organization_id user_id
    match r.2 with
    | none => r.1
    | some nl =>
      r.1 ++ paginate fuel db limit mcp_tool_name start_time end_time
        organization_id user_id (some (logCursorOf nl))

/-! ### The list route (`get_tool_call_logs`, logs.py lines 22-79) -/

/-- Seven days in microseconds (`timedelta(days=7)`). -/
def sevenDays : Int := 7 * 24 * 60 * 60 * 1000000

/-- The route's start-time clamp: absent or older than `now - 7 days`
becomes `now - 7 days`. -/
def clampStart (now : Int) (start_time : Option Int) : Int :=
  match start_time with
  | none => now - sevenDays
  | some v => if v < now - sevenDays then now - sevenDays else v

/-- The route's end-time clamp: absent or in the future becomes `now`. -/
def clampEnd (now : Int) (end_time : Option Int) : Int :=
  match end_time with
  | none => now
  | some v => if now < v then now else v

/-- A cursor-paginated response page (`CursorPaginationResponse`); the
next cursor is kept as its decoded `(started_at, id)` payload — the route
additionally base64-encodes it, which is the concern of the cursor codec
below. -/
structure CursorPage where
  data : List MCPToolCallLog
  next_cursor : Option LogCursor
deriving DecidableEq

/-- Embeds `get_tool_call_logs` (logs.py): clamp the window to at most the
last seven days, return an empty page when the clamped window is inverted
without touching the store, and otherwise run the scoped query (`get_by_org`
for admins, `get_by_user` otherwise) with the clamped inclusive bounds. -/
def get_tool_call_logs (db : List MCPToolCallLog) (now : Int) (limit : Nat)
    (cursor : Option LogCursor) (start_time end_time : Option Int)
    (mcp_tool_name : Option String) (isAdmin : Bool)
    (organization_id user_id : String) : CursorPage :=
  let s := clampStart now start_time
  let e := clampEnd now end_time
  if e < s then ⟨[], none⟩
  else
    let r :=
      if isAdmin then
        logsGet db limit cursor mcp_tool_name (some s) (some e)
          (some organization_id) none
      else
        logsGet db limit cursor mcp_tool_name (some s) (some e)
          none (some user_id)
    ⟨r.1, r.2.map logCursorOf⟩

/-! ### Pagination lemmas -/

theorem descLt_irrefl (a : MCPToolCallLog) : ¬descLt a a := by
  unfold descLt; omega

theorem descLt_asymm {a b : MCPToolCallLog} (h : descLt a b) : ¬descLt b a := by
  unfold descLt at h ⊢; omega

theorem descLt_of_descLe_of_id_ne {a b : MCPToolCallLog}
    (h : descLe a b) (hne : a.id ≠ b.id) : descLt a b := by
  unfold descLe at h; unfold descLt; omega

/-- The cursor WHERE clause keeps exactly the rows strictly after the
cursor row in the `(started_at DESC, id DESC)` order. -/
theorem cursorBefore_logCursorOf (a e : MCPToolCallLog) :
    cursorBefore e (logCursorOf a) = true ↔ descLt a e := by
  simp [cursorBefore, logCursorOf, descLt, Bool.or_eq_true, Bool.and_eq_true,
    decide_eq_true_eq]

/-- On a strictly descending list decomposed as `A1 ++ a :: B`, filtering
by the cursor built from `a` yields exactly the suffix `B`. -/
theorem filter_cursorBefore_last (a : MCPToolCallLog)
    (B : List MCPToolCallLog) :
    ∀ A1 : List MCPToolCallLog, (A1 ++ a :: B).Pairwise descLt →
      (A1 ++ a :: B).filter (fun e => cursorBefore e (logCursorOf a)) = B := by
  intro A1
  induction A1 with
  | nil =>
    intro hp
    rw [List.nil_append] at hp ⊢
    rw [List.filter_cons]
    have ha : cursorBefore a (logCursorOf a) = false := by
      rw [Bool.eq_false_iff]
      intro hcontra
      exact descLt_irrefl a ((cursorBefore_logCursorOf a a).mp hcontra)
    rw [ha]
    simp only [Bool.false_eq_true, if_false]
    exact List.filter_eq_self.mpr fun b hb =>
      (cursorBefore_logCursorOf a b).mpr ((List.pairwise_cons.mp hp).1 b hb)
  | cons x A1 ih =>
    intro hp
    rw [List.cons_append] at hp ⊢
    have hp' := List.pairwise_cons.mp hp
    have hxa : descLt x a := hp'.1 a (by simp)
    have hx : cursorBefore x (logCursorOf a) = false := by
      rw [Bool.eq_false_iff]
      intro hcontra
      exact descLt_asymm hxa ((cursorBefore_logCursorOf a x).mp hcontra)
    rw [List.filter_cons, hx]
    simp only [Bool.false_eq_true, if_false]
    exact ih hp'.2

/-- A `descLe`-sorted list whose ids are distinct is strictly descending. -/
theorem pairwise_descLt_of_sorted {l : List MCPToolCallLog}
    (hs : l.Sorted descLe) (hnd : (l.map MCPToolCallLog.id).Nodup) :
    l.Pairwise descLt := by
  have hne : l.Pairwise (fun a b => a.id ≠ b.id) := List.pairwise_map.mp hnd
  exact (hs.and hne).imp fun h => descLt_of_descLe_of_id_ne h.1 h.2

/-- Sorting the result of the `ORDER BY` over a table with distinct ids is
strictly descending. -/
theorem pairwise_descLt_insertionSort (L : List MCPToolCallLog)
    (hnd : (L.map MCPToolCallLog.id).Nodup) :
    (List.insertionSort descLe L).Pairwise descLt :=
  pairwise_descLt_of_sorted (List.sorted_insertionSort descLe L)
    (((List.perm_insertionSort descLe L).map MCPToolCallLog.id).nodup_iff.mpr hnd)

/-- Filtering commutes with the `ORDER BY` sort when ids are distinct
(both sides are strictly sorted permutations of the same rows). -/
theorem insertionSort_filter (L : List MCPToolCallLog)
    (p : MCPToolCallLog → Bool)
    (hnd : (L.map MCPToolCallLog.id).Nodup) :
    List.insertionSort descLe (L.filter p) =
      (List.insertionSort descLe L).filter p := by
  have hperm : List.Perm (List.insertionSort descLe (L.filter p))
      ((List.insertionSort descLe L).filter p) :=
    (List.perm_insertionSort descLe (L.filter p)).trans
      ((List.perm_insertionSort descLe L).filter p).symm
  have hndf : ((L.filter p).map MCPToolCallLog.id).Nodup :=
    hnd.sublist ((List.filter_sublist (p := p) L).map MCPToolCallLog.id)
  have hs1 : (List.insertionSort descLe (L.filter p)).Pairwise descLt :=
    pairwise_descLt_insertionSort _ hndf
  have hs2 : ((List.insertionSort descLe L).filter p).Pairwise descLt :=
    (pairwise_descLt_insertionSort L hnd).filter p
  exact List.eq_of_perm_of_sorted hperm hs1 hs2

/-- Decompose a list around position `j`: prefix, pivot row, and the
drop-`(j + 1)` suffix. -/
theorem take_decomp (B : List MCPToolCallLog) (j k : Nat) (hjk : j + 1 = k)
    (h : j < B.length) :
    B = B.take j ++ B.get ⟨j, h⟩ :: B.drop k := by
  subst hjk
  conv_lhs => rw [← List.take_append_drop (j + 1) B]
  rw [List.take_succ, List.getElem?_eq_getElem h]
  simp

/-- Main pagination invariant: feeding next cursors into `logsGet`
collects exactly the remaining suffix of the strictly sorted, filtered
table. -/
theorem paginate_aux (db : List MCPToolCallLog) (k : Nat)
    (tn : Option String) (st et : Option Int) (org usr : Option String)
    (hk : 0 < k) (hids : (db.map MCPToolCallLog.id).Nodup) :
    ∀ (fuel : Nat) (B : List MCPToolCallLog) (c : Option LogCursor),
      B.length ≤ fuel →
      ((c = none ∧
          List.insertionSort descLe
            (db.filter (matchesFilters org usr tn st et)) = B) ∨
        (∃ A1 a,
          List.insertionSort descLe
              (db.filter (matchesFilters org usr tn st et)) =
            A1 ++ a :: B ∧ c = some (logCursorOf a))) →
      paginate fuel db k tn st et org usr c = B := by
  have hndf : ((db.filter (matchesFilters org usr tn st et)).map
      MCPToolCallLog.id).Nodup :=
    hids.sublist
      ((List.filter_sublist (p := matchesFilters org usr tn st et) db).map
        MCPToolCallLog.id)
  have hS : (List.insertionSort descLe
      (db.filter (matchesFilters org usr tn st et))).Pairwise descLt :=
    pairwise_descLt_insertionSort _ hndf
  intro fuel
  induction fuel with
  | zero =>
    intro B c hlen _
    have hB : B = [] := List.length_eq_zero.mp (Nat.le_zero.mp hlen)
    simp [paginate, hB]
  | succ fuel ih =>
    intro B c hlen hinv
    have hget : logsGet db k c tn st et org usr =
        (if k < (B.take (k + 1)).length
          then ((B.take (k + 1)).take k, (B.take (k + 1))[k - 1]?)
          else (B.take (k + 1), none)) := by
      rcases hinv with ⟨hc, hSB⟩ | ⟨A1, a, hSB, hc⟩
      · subst hc
        simp only [logsGet, hSB]
      · subst hc
        have hfil : List.insertionSort descLe
            ((db.filter (matchesFilters org usr tn st et)).filter
              (fun e => cursorBefore e (logCursorOf a))) = B := by
          rw [insertionSort_filter _ _ hndf, hSB]
          exact filter_cursorBefore_last a B A1 (hSB ▸ hS)
        simp only [logsGet, hfil]
    by_cases hbig : k < B.length
    · -- full page plus a next cursor from row k - 1
      have hlen1 : (B.take (k + 1)).length = k + 1 := by
        rw [List.length_take]
        omega
      have hcond : k < (B.take (k + 1)).length := by omega
      have hk1 : k - 1 < B.length := by omega
      have hpage : (B.take (k + 1)).take k = B.take k := by
        rw [List.take_take]
        congr 1
        omega
      have hnext : (B.take (k + 1))[k - 1]? = some (B.get ⟨k - 1, hk1⟩) := by
        rw [List.getElem?_take_of_lt (by omega)]
        rw [List.getElem?_eq_getElem hk1]
        rfl
      have hget2 : logsGet db k c tn st et org usr =
          (B.take k, some (B.get ⟨k - 1, hk1⟩)) := by
        rw [hget, if_pos hcond, hpage, hnext]
      have hrec : paginate fuel db k tn st et org usr
          (some (logCursorOf (B.get ⟨k - 1, hk1⟩))) = B.drop k := by
        apply ih
        · rw [List.length_drop]
          omega
        · right
          rcases hinv with ⟨_, hSB⟩ | ⟨A1, a, hSB, _⟩
          · exact ⟨B.take (k - 1), B.get ⟨k - 1, hk1⟩,
              by rw [hSB]; exact take_decomp B (k - 1) k (by omega) hk1, rfl⟩
          · refine ⟨A1 ++ a :: B.take (k - 1), B.get ⟨k - 1, hk1⟩, ?_, rfl⟩
            rw [hSB]
            conv_lhs => rw [take_decomp B (k - 1) k (by omega) hk1]
            simp
      calc paginate (fuel + 1) db k tn st et org usr c
          = B.take k ++ paginate fuel db k tn st et org usr
              (some (logCursorOf (B.get ⟨k - 1, hk1⟩))) := by
            simp only [paginate, hget2]
        _ = B.take k ++ B.drop k := by rw [hrec]
        _ = B := List.take_append_drop k B
    · -- final page: everything that is left, no next cursor
      have htake : B.take (k + 1) = B :=
        List.take_of_length_le (by omega)
      have hcond : ¬k < (B.take (k + 1)).length := by
        rw [htake]
        omega
      have hget2 : logsGet db k c tn st et org usr = (B, none) := by
        rw [hget, if_neg hcond, htake]
      simp only [paginate, hget2]

/-- C3: for every table of audit rows with pairwise-distinct ids
(`started_at` values may repeat arbitrarily) and every fixed scope/filter
combination, paging with a fixed `limit = k ≥ 1` from an empty cursor
until the next cursor is null yields exactly the filtered rows — a
permutation of them, with no duplicates and no gaps — in strictly
descending `(started_at DESC, id DESC)` order; each page is computed by
fetching `limit + 1` rows ordered that way after the cursor predicate
`started_at < c.started_at OR (started_at = c.started_at AND id < c.id)`,
returning rows `[0, limit)` with a next cursor from row `limit - 1` when
more than `limit` rows came back and otherwise all rows with no next
cursor (this is the definition of `logsGet`, which `paginate` iterates). -/
theorem pagination_completeness (db : List MCPToolCallLog) (k : Nat)
    (tn : Option String) (st et : Option Int) (org usr : Option String)
    (hk : 0 < k) (hids : (db.map MCPToolCallLog.id).Nodup) :
    paginate (db.length + 1) db k tn st et org usr none =
      List.insertionSort descLe
        (db.filter (matchesFilters org usr tn st et)) ∧
    List.Perm (paginate (db.length + 1) db k tn st et org usr none)
      (db.filter (matchesFilters org usr tn st et)) ∧
    (paginate (db.length + 1) db k tn st et org usr none).Pairwise descLt := by
  have hfuel :
      (List.insertionSort descLe
        (db.filter (matchesFilters org usr tn st et))).length ≤
        db.length + 1 := by
    calc (List.insertionSort descLe
        (db.filter (matchesFilters org usr tn st et))).length
        = (db.filter (matchesFilters org usr tn st et)).length :=
          (List.perm_insertionSort descLe _).length_eq
      _ ≤ db.length := (List.filter_sublist db).length_le
      _ ≤ db.length + 1 := Nat.le_succ _
  have hmain := paginate_aux db k tn st et org usr hk hids (db.length + 1)
    (List.insertionSort descLe (db.filter (matchesFilters org usr tn st et)))
    none hfuel (Or.inl ⟨rfl, rfl⟩)
  refine ⟨hmain, ?_, ?_⟩
  · rw [hmain]
    exact List.perm_insertionSort descLe _
  · rw [hmain]
    exact pairwise_descLt_insertionSort _
      (hids.sublist
        ((List.filter_sublist (p := matchesFilters org usr tn st et) db).map
          MCPToolCallLog.id))

/-- Witness for `pagination_completeness`: three rows sharing one
`started_at`, paged two at a time, come back as the strictly descending
id order with no duplicates or gaps. -/
theorem pagination_completeness_witness :
    paginate 4
      [⟨1, "o", "u", none, 5⟩, ⟨2, "o", "u", none, 5⟩, ⟨3, "o", "u", none, 5⟩]
      2 none none none none none none =
      [⟨3, "o", "u", none, 5⟩, ⟨2, "o", "u", none, 5⟩, ⟨1, "o", "u", none, 5⟩] :=
  (pagination_completeness
    [⟨1, "o", "u", none, 5⟩, ⟨2, "o", "u", none, 5⟩, ⟨3, "o", "u", none, 5⟩]
    2 none none none none none (by decide) (by decide)).1.trans (by decide)

/-- Every row in a page returned by `_get` satisfies the non-cursor WHERE
clauses it was built with. -/
theorem logsGet_mem_filters (db : List MCPToolCallLog) (limit : Nat)
    (cursor : Option LogCursor) (tn : Option String) (st et : Option Int)
    (org usr : Option String) :
    ∀ x ∈ (logsGet db limit cursor tn st et org usr).1,
      matchesFilters org usr tn st et x = true := by
  intro x hx
  cases cursor with
  | none =>
    have hmem : x ∈ db.filter (matchesFilters org usr tn st et) := by
      simp only [logsGet] at hx
      split at hx
      · exact ((List.perm_insertionSort descLe _).mem_iff).mp
          (List.mem_of_mem_take (List.mem_of_mem_take hx))
      · exact ((List.perm_insertionSort descLe _).mem_iff).mp
          (List.mem_of_mem_take hx)
    exact (List.mem_filter.mp hmem).2
  | some cc =>
    have hmem : x ∈ (db.filter (matchesFilters org usr tn st et)).filter
        (fun e => cursorBefore e cc) := by
      simp only [logsGet] at hx
      split at hx
      · exact ((List.perm_insertionSort descLe _).mem_iff).mp
          (List.mem_of_mem_take (List.mem_of_mem_take hx))
      · exact ((List.perm_insertionSort descLe _).mem_iff).mp
          (List.mem_of_mem_take hx)
    exact (List.mem_filter.mp (List.mem_filter.mp hmem).1).2

/-- Unpacking the inclusive time window from the filter conjunction. -/
theorem matchesFilters_time_bounds {org usr tn : Option String} {s e : Int}
    {x : MCPToolCallLog}
    (h : matchesFilters org usr tn (some s) (some e) x = true) :
    s ≤ x.started_at ∧ x.started_at ≤ e := by
  simp only [matchesFilters, Bool.and_eq_true, decide_eq_true_eq] at h
  exact ⟨h.1.2, h.2⟩

/-- C5: relative to `now`, an absent `start_time` or one older than
`now - 7 days` is clamped to `now - 7 days` (otherwise kept), an absent or
future `end_time` is clamped to `now` (otherwise kept); if after clamping
`end_time < start_time` the route returns `{data: [], next_cursor: null}`
for every table (the store is not consulted); otherwise every returned
entry has `started_at` within the clamped window, inclusive on both
bounds. -/
theorem time_window_clamping (db : List MCPToolCallLog) (now : Int)
    (limit : Nat) (cursor : Option LogCursor)
    (start_time end_time : Option Int) (tn : Option String) (isAdmin : Bool)
    (org usr : String) :
    (start_time = none → clampStart now start_time = now - sevenDays) ∧
    (∀ v, start_time = some v → v < now - sevenDays →
      clampStart now start_time = now - sevenDays) ∧
    (∀ v, start_time = some v → now - sevenDays ≤ v →
      clampStart now start_time = v) ∧
    (end_time = none → clampEnd now end_time = now) ∧
    (∀ v, end_time = some v → now < v → clampEnd now end_time = now) ∧
    (∀ v, end_time = some v → v ≤ now → clampEnd now end_time = v) ∧
    (clampEnd now end_time < clampStart now start_time →
      get_tool_call_logs db now limit cursor start_time end_time tn isAdmin
        org usr = ⟨[], none⟩) ∧
    (∀ x, x ∈ (get_tool_call_logs db now limit cursor start_time end_time tn
        isAdmin org usr).data →
      clampStart now start_time ≤ x.started_at ∧
      x.started_at ≤ clampEnd now end_time) := by
  refine ⟨?_, ?_, ?_, ?_, ?_, ?_, ?_, ?_⟩
  · intro h; rw [h]; rfl
  · intro v hv hlt; rw [hv]; simp only [clampStart]; rw [if_pos hlt]
  · intro v hv hge; rw [hv]; simp only [clampStart]; rw [if_neg (by omega)]
  · intro h; rw [h]; rfl
  · intro v hv hlt; rw [hv]; simp only [clampEnd]; rw [if_pos hlt]
  · intro v hv hle; rw [hv]; simp only [clampEnd]; rw [if_neg (by omega)]
  · intro hlt
    simp only [get_tool_call_logs]
    rw [if_pos hlt]
  · intro x hx
    simp only [get_tool_call_logs] at hx
    by_cases hlt : clampEnd now end_time < clampStart now start_time
    · rw [if_pos hlt] at hx
      simp at hx
    · rw [if_neg hlt] at hx
      cases isAdmin
      · simp only [Bool.false_eq_true, if_false] at hx
        exact matchesFilters_time_bounds
          (logsGet_mem_filters db limit cursor tn _ _ none (some usr) x hx)
      · simp only [if_true] at hx
        exact matchesFilters_time_bounds
          (logsGet_mem_filters db limit cursor tn _ _ (some org) none x hx)

/-- Witness for `time_window_clamping`: a window whose clamped end
(`100`, in the past) precedes its clamped start (`now - 7 days`) yields
the empty page even though the table has a row. -/
theorem time_window_clamping_witness :
    get_tool_call_logs [⟨1, "o", "u", none, 50⟩] 1000000000000 30 none
      (some 7) (some 100) none true "o" "u" = ⟨[], none⟩ :=
  (time_window_clamping [⟨1, "o", "u", none, 50⟩] 1000000000000 30 none
    (some 7) (some 100) none true "o" "u").2.2.2.2.2.2.1 (by decide)

/-! ### The cursor codec (`MCPToolCallLogCursor.encode` / `.decode`,
mcp_tool_call_log.py lines 73-89)

`encode` is `base64.urlsafe_b64encode(json.dumps(payload).encode()).decode()`
and `decode` is the inverse chain through `json.loads`,
`datetime.fromisoformat` and `uuid.UUID`.  The Python standard-library
pieces are embedded below at the byte/character level: url-safe base64
(with CPython's documented non-strict decoding, which discards characters
outside the alphabet prior to the padding check), strict UTF-8, a JSON
printer/parser covering the full JSON grammar (string escapes limited to
the standard JSON escapes with surrogate-pair handling, numbers kept as
raw text), `datetime.isoformat`/`fromisoformat` on the formats `isoformat`
emits (plus date-only and minute-precision variants; the basic formats
without separators, week dates and sub-six-digit fractions that newer
CPython also accepts are outside the modelled grammar), and
`uuid.UUID(hex=...)` with its `urn:`/`uuid:`/brace/dash stripping.
Bytes are `Nat` values below 256. -/

/-- Index to character of the url-safe base64 alphabet (RFC 4648 §5). -/
def b64Char (i : Nat) : Char :=
  if i < 26 then Char.ofNat (65 + i)
  else if i < 52 then Char.ofNat (97 + (i - 26))
  else if i < 62 then Char.ofNat (48 + (i - 52))
  else if i = 62 then '-'
  else '_'

/-- Classification of an input character by the base64 decoder: a sextet
value, a padding `'='`, or a character outside the alphabet (which the
non-strict CPython decoder discards).  Both the url-safe `-`/`_` and the
standard `+`/`/` forms are accepted, mirroring `urlsafe_b64decode`'s
translate-then-decode. -/
inductive B64Class where
  | val (v : Nat)
  | pad
  | invalid
deriving DecidableEq

def b64Classify (c : Char) : B64Class :=
  if 'A' ≤ c ∧ c ≤ 'Z' then .val (c.toNat - 65)
  else if 'a' ≤ c ∧ c ≤ 'z' then .val (26 + (c.toNat - 97))
  else if '0' ≤ c ∧ c ≤ '9' then .val (52 + (c.toNat - 48))
  else if c = '-' ∨ c = '+' then .val 62
  else if c = '_' ∨ c = '/' then .val 63
  else if c = '=' then .pad
  else .invalid

/-- Embeds `base64.urlsafe_b64encode` on a byte list. -/
def b64EncodeBytes : List Nat → List Char
  | [] => []
  | [b0] => [b64Char (b0 / 4), b64Char ((b0 % 4) * 16), '=', '=']
  | [b0, b1] =>
    [b64Char (b0 / 4), b64Char ((b0 % 4) * 16 + b1 / 16),
      b64Char ((b1 % 16) * 4), '=']
  | b0 :: b1 :: b2 :: rest =>
    b64Char (b0 / 4) :: b64Char ((b0 % 4) * 16 + b1 / 16) ::
      b64Char ((b1 % 16) * 4 + b2 / 64) :: b64Char (b2 % 64) ::
      b64EncodeBytes rest

/-- The bytes produced by a partial final quad when padding ends the
input (top bits only; excess low bits are dropped, as in `binascii`). -/
def b64EmitPartial : List Nat → List Nat
  | [s0, s1] => [s0 * 4 + s1 / 16]
  | [s0, s1, s2] => [s0 * 4 + s1 / 16, (s1 % 16) * 16 + s2 / 4]
  | _ => []

/-- Embeds CPython's non-strict `binascii.a2b_base64` loop (as called by
`base64.b64decode` with `validate=False`): invalid characters are
discarded; a `'='` with at least two sextets accumulated either completes
the quad (decoding stops, the remainder is ignored) or is counted; a
`'='` with fewer than two accumulated sextets is ignored; a data
character resets the pad count; input ending mid-quad is an error
(`Incorrect padding`).  State: accumulated sextets of the current quad
and the count of pending pads. -/
def b64DecodeLoop : List Char → List Nat → Nat → Option (List Nat)
  | [], quad, _ => if quad.isEmpty then some [] else none
  | c :: rest, quad, pads =>
    match b64Classify c with
    | .invalid => b64DecodeLoop rest quad pads
    | .pad =>
      if 2 ≤ quad.length then
        if 4 ≤ quad.length + (pads + 1) then some (b64EmitPartial quad)
        else b64DecodeLoop rest quad (pads + 1)
      else b64DecodeLoop rest quad pads
    | .val v =>
      match quad with
      | [s0, s1, s2] =>
        match b64DecodeLoop rest [] 0 with
        | none => none
        | some out =>
          some ((s0 * 4 + s1 / 16) :: ((s1 % 16) * 16 + s2 / 4) ::
            ((s2 % 4) * 64 + v) :: out)
      | _ => b64DecodeLoop rest (quad ++ [v]) 0

/-- Embeds `base64.urlsafe_b64decode` on a character list. -/
def b64DecodeChars (s : List Char) : Option (List Nat) :=
  b64DecodeLoop s [] 0

theorem b64Classify_b64Char (v : Nat) (h : v < 64) :
    b64Classify (b64Char v) = .val v := by
  have hfin : ∀ x : Fin 64, b64Classify (b64Char x.val) = .val x.val := by decide
  exact hfin ⟨v, h⟩

theorem b64Classify_pad : b64Classify '=' = .pad := by decide

/-- Base64 decoding inverts encoding (on genuine byte lists). -/
theorem b64_roundtrip_aux :
    ∀ (n : Nat) (bs : List Nat), bs.length ≤ n → (∀ b ∈ bs, b < 256) →
      b64DecodeLoop (b64EncodeBytes bs) [] 0 = some bs := by
  intro n
  induction n with
  | zero =>
    intro bs hlen _
    have hbs : bs = [] := List.length_eq_zero.mp (Nat.le_zero.mp hlen)
    subst hbs
    rfl
  | succ n ih =>
    intro bs hlen hb
    cases bs with
    | nil => rfl
    | cons b0 tl =>
      have hb0 : b0 < 256 := hb b0 (by simp)
      cases tl with
      | nil =>
        have h0 := b64Classify_b64Char (b0 / 4) (by omega)
        have h1 := b64Classify_b64Char ((b0 % 4) * 16) (by omega)
        simp only [b64EncodeBytes, b64DecodeLoop, h0, h1, b64Classify_pad,
          b64EmitPartial, List.nil_append, List.cons_append, List.length_nil,
          List.length_cons]
        norm_num
        omega
      | cons b1 tl2 =>
        have hb1 : b1 < 256 := hb b1 (by simp)
        cases tl2 with
        | nil =>
          have h0 := b64Classify_b64Char (b0 / 4) (by omega)
          have h1 := b64Classify_b64Char ((b0 % 4) * 16 + b1 / 16) (by omega)
          have h2 := b64Classify_b64Char ((b1 % 16) * 4) (by omega)
          simp only [b64EncodeBytes, b64DecodeLoop, h0, h1, h2,
            b64Classify_pad, b64EmitPartial, List.nil_append,
            List.cons_append, List.length_nil, List.length_cons]
          norm_num
          constructor <;> omega
        | cons b2 rest =>
          have hb2 : b2 < 256 := hb b2 (by simp)
          have h0 := b64Classify_b64Char (b0 / 4) (by omega)
          have h1 := b64Classify_b64Char ((b0 % 4) * 16 + b1 / 16) (by omega)
          have h2 := b64Classify_b64Char ((b1 % 16) * 4 + b2 / 64) (by omega)
          have h3 := b64Classify_b64Char (b2 % 64) (by omega)
          have hrec : b64DecodeLoop (b64EncodeBytes rest) [] 0 = some rest :=
            ih rest (by simp at hlen; omega)
              (fun b hbm => hb b (by simp [hbm]))
          simp only [b64EncodeBytes, b64DecodeLoop, h0, h1, h2, h3,
            List.nil_append, List.cons_append, hrec, Option.some.injEq,
            List.cons.injEq]
          refine ⟨?_, ?_, ?_, trivial⟩ <;> omega

/-- Base64 decoding inverts encoding. -/
theorem b64DecodeChars_encode (bs : List Nat) (hb : ∀ b ∈ bs, b < 256) :
    b64DecodeChars (b64EncodeBytes bs) = some bs :=
  b64_roundtrip_aux bs.length bs le_rfl hb

/-! ### UTF-8 (`str.encode()` / `bytes.decode()`, strict) -/

/-- UTF-8 encoding of one Unicode scalar value. -/
def utf8EncodeChar (c : Char) : List Nat :=
  let n := c.toNat
  if n < 0x80 then [n]
  else if n < 0x800 then [0xC0 + n / 64, 0x80 + n % 64]
  else if n < 0x10000 then
    [0xE0 + n / 4096, 0x80 + (n / 64) % 64, 0x80 + n % 64]
  else
    [0xF0 + n / 262144, 0x80 + (n / 4096) % 64, 0x80 + (n / 64) % 64,
      0x80 + n % 64]

def utf8Encode : List Char → List Nat
  | [] => []
  | c :: rest => utf8EncodeChar c ++ utf8Encode rest

/-- Decoding of the continuation of a two-byte UTF-8 sequence. -/
def utf8Dec2 (b0 : Nat) : List Nat → Option (Nat × List Nat)
  | b1 :: rest1 =>
    if 0x80 ≤ b1 ∧ b1 < 0xC0 then
      some ((b0 - 0xC0) * 64 + (b1 - 0x80), rest1)
    else none
  | [] => none

/-- Decoding of the continuation of a three-byte UTF-8 sequence, with the
overlong and surrogate rejections of a strict decoder. -/
def utf8Dec3 (b0 : Nat) : List Nat → Option (Nat × List Nat)
  | b1 :: b2 :: rest2 =>
    if (0x80 ≤ b1 ∧ b1 < 0xC0) ∧ (0x80 ≤ b2 ∧ b2 < 0xC0) then
      if (b0 - 0xE0) * 4096 + (b1 - 0x80) * 64 + (b2 - 0x80) < 0x800 ∨
          (0xD800 ≤ (b0 - 0xE0) * 4096 + (b1 - 0x80) * 64 + (b2 - 0x80) ∧
            (b0 - 0xE0) * 4096 + (b1 - 0x80) * 64 + (b2 - 0x80) < 0xE000) then
        none
      else some ((b0 - 0xE0) * 4096 + (b1 - 0x80) * 64 + (b2 - 0x80), rest2)
    else none
  | _ => none

/-- Decoding of the continuation of a four-byte UTF-8 sequence, with the
overlong and range rejections of a strict decoder. -/
def utf8Dec4 (b0 : Nat) : List Nat → Option (Nat × List Nat)
  | b1 :: b2 :: b3 :: rest3 =>
    if (0x80 ≤ b1 ∧ b1 < 0xC0) ∧ (0x80 ≤ b2 ∧ b2 < 0xC0) ∧
        (0x80 ≤ b3 ∧ b3 < 0xC0) then
      if (b0 - 0xF0) * 262144 + (b1 - 0x80) * 4096 + (b2 - 0x80) * 64 +
            (b3 - 0x80) < 0x10000 ∨
          0x110000 ≤ (b0 - 0xF0) * 262144 + (b1 - 0x80) * 4096 +
            (b2 - 0x80) * 64 + (b3 - 0x80) then none
      else
        some ((b0 - 0xF0) * 262144 + (b1 - 0x80) * 4096 + (b2 - 0x80) * 64 +
          (b3 - 0x80), rest3)
    else none
  | _ => none

/-- Decode one scalar value from the front of a byte list (strict UTF-8:
stray continuation bytes, overlongs, surrogates, values beyond `0x10FFFF`
and truncated sequences are rejected). -/
def utf8DecodeStep : List Nat → Option (Nat × List Nat)
  | [] => none
  | b0 :: rest =>
    if b0 < 0x80 then some (b0, rest)
    else if b0 < 0xC2 then none
    else if b0 < 0xE0 then utf8Dec2 b0 rest
    else if b0 < 0xF0 then utf8Dec3 b0 rest
    else if b0 < 0xF5 then utf8Dec4 b0 rest
    else none

/-- The decoding loop; each step consumes at least one byte, so the
byte-list length is sufficient fuel. -/
def utf8DecodeLoop : Nat → List Nat → Option (List Char)
  | _, [] => some []
  | 0, _ :: _ => none
  | fuel + 1, b0 :: rest =>
    match utf8DecodeStep (b0 :: rest) with
    | none => none
    | some (n, rest1) =>
      match utf8DecodeLoop fuel rest1 with
      | some cs => some (Char.ofNat n :: cs)
      | none => none

/-- Embeds strict `bytes.decode()` (UTF-8). -/
def utf8Decode (l : List Nat) : Option (List Char) :=
  utf8DecodeLoop l.length l


theorem char_toNat_lt (c : Char) : c.toNat < 0x110000 := by
  rcases c.valid with h | ⟨_, h⟩
  · exact Nat.lt_trans h (by norm_num)
  · exact h

theorem utf8EncodeChar_lt_256 (c : Char) : ∀ b ∈ utf8EncodeChar c, b < 256 := by
  intro b hb
  have hv : c.toNat < 0x110000 := char_toNat_lt c
  simp only [utf8EncodeChar] at hb
  by_cases h1 : c.toNat < 0x80
  · rw [if_pos h1] at hb
    simp only [List.mem_singleton] at hb
    omega
  · rw [if_neg h1] at hb
    by_cases h2 : c.toNat < 0x800
    · rw [if_pos h2] at hb
      simp only [List.mem_cons, List.mem_singleton, List.not_mem_nil,
        or_false] at hb
      rcases hb with h | h <;> omega
    · rw [if_neg h2] at hb
      by_cases h3 : c.toNat < 0x10000
      · rw [if_pos h3] at hb
        simp only [List.mem_cons, List.not_mem_nil, or_false] at hb
        rcases hb with h | h | h <;> omega
      · rw [if_neg h3] at hb
        simp only [List.mem_cons, List.not_mem_nil, or_false] at hb
        rcases hb with h | h | h | h <;> omega

theorem utf8Encode_lt_256 (s : List Char) : ∀ b ∈ utf8Encode s, b < 256 := by
  induction s with
  | nil => intro b hb; simp [utf8Encode] at hb
  | cons c rest ih =>
    intro b hb
    simp only [utf8Encode, List.mem_append] at hb
    rcases hb with h | h
    · exact utf8EncodeChar_lt_256 c b h
    · exact ih b h

theorem utf8EncodeChar_length_pos (c : Char) :
    0 < (utf8EncodeChar c).length := by
  simp only [utf8EncodeChar]
  split_ifs <;> simp

/-- Decoding one scalar from an encoded character recovers it. -/
theorem utf8DecodeStep_encodeChar (c : Char) (tail : List Nat) :
    utf8DecodeStep (utf8EncodeChar c ++ tail) = some (c.toNat, tail) := by
  have hv : c.toNat < 0xD800 ∨ (0xE000 ≤ c.toNat ∧ c.toNat < 0x110000) :=
    c.valid
  by_cases h1 : c.toNat < 0x80
  · have henc : utf8EncodeChar c = [c.toNat] := by
      simp only [utf8EncodeChar]
      rw [if_pos h1]
    rw [henc, List.cons_append, List.nil_append, utf8DecodeStep, if_pos h1]
  · by_cases h2 : c.toNat < 0x800
    · have henc : utf8EncodeChar c =
          [0xC0 + c.toNat / 64, 0x80 + c.toNat % 64] := by
        simp only [utf8EncodeChar]
        rw [if_neg h1, if_pos h2]
      rw [henc, List.cons_append, List.cons_append, List.nil_append,
        utf8DecodeStep]
      rw [if_neg (by omega), if_neg (by omega), if_pos (by omega), utf8Dec2,
        if_pos (by omega)]
      simp only [Option.some.injEq, Prod.mk.injEq]
      exact ⟨by omega, trivial⟩
    · by_cases h3 : c.toNat < 0x10000
      · have henc : utf8EncodeChar c =
            [0xE0 + c.toNat / 4096, 0x80 + c.toNat / 64 % 64,
              0x80 + c.toNat % 64] := by
          simp only [utf8EncodeChar]
          rw [if_neg h1, if_neg h2, if_pos h3]
        rw [henc, List.cons_append, List.cons_append, List.cons_append,
          List.nil_append, utf8DecodeStep]
        rw [if_neg (by omega), if_neg (by omega), if_neg (by omega),
          if_pos (by omega), utf8Dec3, if_pos (by omega), if_neg (by omega)]
        simp only [Option.some.injEq, Prod.mk.injEq]
        exact ⟨by omega, trivial⟩
      · have hv4 : c.toNat < 0x110000 := char_toNat_lt c
        have henc : utf8EncodeChar c =
            [0xF0 + c.toNat / 262144, 0x80 + c.toNat / 4096 % 64,
              0x80 + c.toNat / 64 % 64, 0x80 + c.toNat % 64] := by
          simp only [utf8EncodeChar]
          rw [if_neg h1, if_neg h2, if_neg h3]
        rw [henc, List.cons_append, List.cons_append, List.cons_append,
          List.cons_append, List.nil_append, utf8DecodeStep]
        rw [if_neg (by omega), if_neg (by omega), if_neg (by omega),
          if_neg (by omega), if_pos (by omega), utf8Dec4, if_pos (by omega),
          if_neg (by omega)]
        simp only [Option.some.injEq, Prod.mk.injEq]
        exact ⟨by omega, trivial⟩

theorem utf8DecodeLoop_encode :
    ∀ (fuel : Nat) (s : List Char), (utf8Encode s).length ≤ fuel →
      utf8DecodeLoop fuel (utf8Encode s) = some s := by
  intro fuel
  induction fuel with
  | zero =>
    intro s hlen
    cases s with
    | nil => rfl
    | cons c rest =>
      exfalso
      have h1 := utf8EncodeChar_length_pos c
      have h2 : (utf8Encode (c :: rest)).length =
          (utf8EncodeChar c).length + (utf8Encode rest).length := by
        rw [utf8Encode, List.length_append]
      omega
  | succ fuel ih =>
    intro s hlen
    cases s with
    | nil => rfl
    | cons c rest =>
      have hback : Char.ofNat c.toNat = c := Char.ofNat_toNat c
      have h1 := utf8EncodeChar_length_pos c
      have hlen2 : (utf8Encode rest).length ≤ fuel := by
        have h2 : (utf8Encode (c :: rest)).length =
            (utf8EncodeChar c).length + (utf8Encode rest).length := by
          rw [utf8Encode, List.length_append]
        omega
      obtain ⟨b0, bs, henc⟩ :
          ∃ b0 bs, utf8EncodeChar c ++ utf8Encode rest = b0 :: bs := by
        cases hh : utf8EncodeChar c with
        | nil => rw [hh] at h1; simp at h1
        | cons x xs => exact ⟨x, xs ++ utf8Encode rest, by simp [hh]⟩
      rw [utf8Encode, henc, utf8DecodeLoop, ← henc,
        utf8DecodeStep_encodeChar c (utf8Encode rest)]
      simp only [ih rest hlen2, hback]

/-- UTF-8 decoding inverts encoding. -/
theorem utf8Decode_encode (s : List Char) :
    utf8Decode (utf8Encode s) = some s :=
  utf8DecodeLoop_encode (utf8Encode s).length s le_rfl

/-! ### JSON (`json.dumps` / `json.loads`) -/

/-- JSON values; numeric literals are kept as raw text (the cursor codec
never consumes a number successfully — `fromisoformat` and `UUID` both
reject non-strings). -/
inductive Json where
  | null
  | bool (b : Bool)
  | num (raw : String)
  | str (s : String)
  | arr (xs : List Json)
  | obj (fields : List (String × Json))

def hexDigitLower (n : Nat) : Char :=
  if n < 10 then Char.ofNat (48 + n) else Char.ofNat (87 + n)

/-- The backslash-u escape used by `json.dumps(ensure_ascii=True)`. -/
def uEscape (n : Nat) : List Char :=
  ['\\', 'u', hexDigitLower (n / 4096 % 16), hexDigitLower (n / 256 % 16),
    hexDigitLower (n / 16 % 16), hexDigitLower (n % 16)]

/-- Escaping of one character in a dumped JSON string (`ensure_ascii`
default: quote, backslash and the short control escapes, backslash-u for
other controls and all non-ASCII, surrogate pairs above `0xFFFF`). -/
def jsonEscapeChar (c : Char) : List Char :=
  if c = '"' then ['\\', '"']
  else if c = '\\' then ['\\', '\\']
  else if c.toNat = 10 then ['\\', 'n']
  else if c.toNat = 9 then ['\\', 't']
  else if c.toNat = 13 then ['\\', 'r']
  else if c.toNat = 8 then ['\\', 'b']
  else if c.toNat = 12 then ['\\', 'f']
  else if c.toNat < 0x20 ∨ 0x7F ≤ c.toNat then
    if c.toNat < 0x10000 then uEscape c.toNat
    else
      uEscape (0xD800 + (c.toNat - 0x10000) / 1024) ++
        uEscape (0xDC00 + (c.toNat - 0x10000) % 1024)
  else [c]

def jsonEscapeList : List Char → List Char
  | [] => []
  | c :: rest => jsonEscapeChar c ++ jsonEscapeList rest

def jsonDumpsString (s : List Char) : List Char :=
  '"' :: (jsonEscapeList s ++ ['"'])

/-- `json.dumps` of the cursor payload dict (default separators:
key `: ` value, member `, ` member). -/
def jsonDumpsPayload (sa idv : List Char) : List Char :=
  '{' :: (jsonDumpsString ("started_at".data) ++
    ':' :: ' ' :: (jsonDumpsString sa ++
    ',' :: ' ' :: (jsonDumpsString ("id".data) ++
    ':' :: ' ' :: (jsonDumpsString idv ++ ['}']))))

/-- `json.dumps` of a payload dict that carries only `started_at`. -/
def jsonDumpsStartedOnly (sa : List Char) : List Char :=
  '{' :: (jsonDumpsString ("started_at".data) ++
    ':' :: ' ' :: (jsonDumpsString sa ++ ['}']))

def isJsonWs (c : Char) : Bool :=
  c = ' ' ∨ c.toNat = 9 ∨ c.toNat = 10 ∨ c.toNat = 13

def skipWs : List Char → List Char
  | [] => []
  | c :: rest => if isJsonWs c then skipWs rest else c :: rest

def hexVal (c : Char) : Option Nat :=
  if '0' ≤ c ∧ c ≤ '9' then some (c.toNat - 48)
  else if 'a' ≤ c ∧ c ≤ 'f' then some (c.toNat - 87)
  else if 'A' ≤ c ∧ c ≤ 'F' then some (c.toNat - 55)
  else none

/-- One step inside a JSON string body: the closing quote, one literal or
escaped character (surrogate pairs combined, lone surrogates rejected —
the one divergence from `json.loads`, which admits lone surrogates into a
`str` that the timestamp/id parsers then reject anyway), or an error. -/
inductive JStrStep where
  | done (rest : List Char)
  | item (c : Char) (rest : List Char)
  | bad

def jsonStringStep : List Char → JStrStep
  | [] => .bad
  | c :: rest =>
    if c = '"' then .done rest
    else if c = '\\' then
      match rest with
      | [] => .bad
      | e :: rest1 =>
        if e = '"' then .item '"' rest1
        else if e = '\\' then .item '\\' rest1
        else if e = '/' then .item '/' rest1
        else if e = 'b' then .item (Char.ofNat 8) rest1
        else if e = 'f' then .item (Char.ofNat 12) rest1
        else if e = 'n' then .item (Char.ofNat 10) rest1
        else if e = 'r' then .item (Char.ofNat 13) rest1
        else if e = 't' then .item (Char.ofNat 9) rest1
        else if e = 'u' then
          match rest1 with
          | h1 :: h2 :: h3 :: h4 :: rest2 =>
            match hexVal h1, hexVal h2, hexVal h3, hexVal h4 with
            | some a, some b, some cc, some d =>
              if a * 4096 + b * 256 + cc * 16 + d < 0xD800 ∨
                  0xE000 ≤ a * 4096 + b * 256 + cc * 16 + d then
                .item (Char.ofNat (a * 4096 + b * 256 + cc * 16 + d)) rest2
              else if a * 4096 + b * 256 + cc * 16 + d < 0xDC00 then
                match rest2 with
                | e2 :: u2 :: h5 :: h6 :: h7 :: h8 :: rest3 =>
                  if e2 = '\\' ∧ u2 = 'u' then
                    match hexVal h5, hexVal h6, hexVal h7, hexVal h8 with
                    | some a2, some b2, some c2, some d2 =>
                      if 0xDC00 ≤ a2 * 4096 + b2 * 256 + c2 * 16 + d2 ∧
                          a2 * 4096 + b2 * 256 + c2 * 16 + d2 < 0xE000 then
                        .item (Char.ofNat (0x10000 +
                          (a * 4096 + b * 256 + cc * 16 + d - 0xD800) * 1024 +
                          (a2 * 4096 + b2 * 256 + c2 * 16 + d2 - 0xDC00)))
                          rest3
                      else .bad
                    | _, _, _, _ => .bad
                  else .bad
                | _ => .bad
              else .bad
            | _, _, _, _ => .bad
          | _ => .bad
        else .bad
    else if c.toNat < 0x20 then .bad
    else .item c rest

/-- JSON string body parser (the opening quote already consumed); fuel at
least the input length suffices since each step consumes a character. -/
def parseJStringBody : Nat → List Char → Option (List Char × List Char)
  | 0, _ => none
  | fuel + 1, l =>
    match jsonStringStep l with
    | .done rest => some ([], rest)
    | .bad => none
    | .item c rest =>
      match parseJStringBody fuel rest with
      | some (cs, r) => some (c :: cs, r)
      | none => none

def isDigitChar (c : Char) : Bool := '0' ≤ c ∧ c ≤ '9'

/-- Fractional part of a JSON number (raw text). -/
def parseJFrac (l : List Char) : Option (List Char × List Char) :=
  match l with
  | '.' :: rest =>
    let ds := rest.takeWhile isDigitChar
    if ds.isEmpty then none else some ('.' :: ds, rest.drop ds.length)
  | _ => some ([], l)

/-- Exponent part of a JSON number (raw text). -/
def parseJExp (l : List Char) : Option (List Char × List Char) :=
  match l with
  | c :: rest =>
    if c = 'e' ∨ c = 'E' then
      match rest with
      | s :: rest1 =>
        if s = '+' ∨ s = '-' then
          let ds := rest1.takeWhile isDigitChar
          if ds.isEmpty then none
          else some (c :: s :: ds, rest1.drop ds.length)
        else
          let ds := rest.takeWhile isDigitChar
          if ds.isEmpty then none
          else some (c :: ds, rest.drop ds.length)
      | [] => none
    else some ([], c :: rest)
  | [] => some ([], [])

/-- JSON number parser (raw text kept; leading-zero rule enforced). -/
def parseJNumber (l : List Char) : Option (Json × List Char) :=
  let p :=
    match l with
    | '-' :: rest => (['-'], rest)
    | _ => (([] : List Char), l)
  let intPart := p.2.takeWhile isDigitChar
  if intPart.isEmpty then none
  else if 1 < intPart.length ∧ intPart.head? = some '0' then none
  else
    match parseJFrac (p.2.drop intPart.length) with
    | none => none
    | some (frac, l2) =>
      match parseJExp l2 with
      | none => none
      | some (ex, l3) =>
        some (.num (String.mk (p.1 ++ intPart ++ frac ++ ex)), l3)

mutual

/-- JSON value parser (`json.loads` grammar); recursion is bounded by
fuel, which every recursive call decrements — fuel beyond the input
length is always sufficient since each level consumes input. -/
def parseJValue : Nat → List Char → Option (Json × List Char)
  | 0, _ => none
  | fuel + 1, l =>
    match skipWs l with
    | [] => none
    | c :: rest =>
      if c = '{' then
        match skipWs rest with
        | '}' :: rest2 => some (.obj [], rest2)
        | rest1 =>
          match parseJMember fuel rest1 with
          | none => none
          | some (kv, rest2) =>
            match parseJMembersRest fuel rest2 with
            | none => none
            | some (kvs, rest3) => some (.obj (kv :: kvs), rest3)
      else if c = '[' then
        match skipWs rest with
        | ']' :: rest2 => some (.arr [], rest2)
        | rest1 =>
          match parseJValue fuel rest1 with
          | none => none
          | some (v, rest2) =>
            match parseJElemsRest fuel rest2 with
            | none => none
            | some (vs, rest3) => some (.arr (v :: vs), rest3)
      else if c = '"' then
        match parseJStringBody (rest.length + 1) rest with
        | some (cs, rest2) => some (.str (String.mk cs), rest2)
        | none => none
      else if c = 't' then
        match rest with
        | 'r' :: 'u' :: 'e' :: rest2 => some (.bool true, rest2)
        | _ => none
      else if c = 'f' then
        match rest with
        | 'a' :: 'l' :: 's' :: 'e' :: rest2 => some (.bool false, rest2)
        | _ => none
      else if c = 'n' then
        match rest with
        | 'u' :: 'l' :: 'l' :: rest2 => some (.null, rest2)
        | _ => none
      else parseJNumber (c :: rest)

/-- One `"key": value` member. -/
def parseJMember : Nat → List Char → Option ((String × Json) × List Char)
  | 0, _ => none
  | fuel + 1, l =>
    match skipWs l with
    | '"' :: rest =>
      match parseJStringBody (rest.length + 1) rest with
      | none => none
      | some (key, rest1) =>
        match skipWs rest1 with
        | ':' :: rest2 =>
          match parseJValue fuel rest2 with
          | none => none
          | some (v, rest3) => some ((String.mk key, v), rest3)
        | _ => none
    | _ => none

/-- The members after the first (comma-separated, closed by a brace). -/
def parseJMembersRest : Nat → List Char →
    Option (List (String × Json) × List Char)
  | 0, _ => none
  | fuel + 1, l =>
    match skipWs l with
    | ',' :: rest =>
      match parseJMember fuel rest with
      | none => none
      | some (kv, rest1) =>
        match parseJMembersRest fuel rest1 with
        | none => none
        | some (kvs, rest2) => some (kv :: kvs, rest2)
    | '}' :: rest => some ([], rest)
    | _ => none

/-- The array elements after the first (comma-separated, closed by a
bracket). -/
def parseJElemsRest : Nat → List Char → Option (List Json × List Char)
  | 0, _ => none
  | fuel + 1, l =>
    match skipWs l with
    | ',' :: rest =>
      match parseJValue fuel rest with
      | none => none
      | some (v, rest1) =>
        match parseJElemsRest fuel rest1 with
        | none => none
        | some (vs, rest2) => some (v :: vs, rest2)
    | ']' :: rest => some ([], rest)
    | _ => none

end

/-- Embeds `json.loads`: parse one value and require only whitespace to
remain. -/
def jsonLoads (l : List Char) : Option Json :=
  match parseJValue (l.length + 4) l with
  | none => none
  | some (j, rest) => if (skipWs rest).isEmpty then some j else none

/-- Embeds a key access on a parsed JSON document: only objects support
key lookup; duplicate keys resolve to the last occurrence (Python dict
construction order). -/
def jlookup (j : Json) (key : String) : Option Json :=
  match j with
  | .obj fields =>
    match fields.reverse.find? (fun p => p.1 == key) with
    | some p => some p.2
    | none => none
  | _ => none

/-- The string payload of a JSON value, when it is a string
(`fromisoformat` and `UUID` raise on every other type). -/
def asString : Json → Option (List Char)
  | .str s => some s.data
  | _ => none


/-! ### datetime (`datetime.isoformat` / `datetime.fromisoformat`)

Timestamps are embedded structurally; the timezone is an offset in
minutes east of UTC (`none` = naive).  `fromisoformat` covers the
grammar `isoformat` emits — `YYYY-MM-DD`, optionally a `T` or space
separator with `HH:MM`, `HH:MM:SS` or `HH:MM:SS.ffffff`, optionally `Z`
or a `±HH:MM` offset; newer CPython additionally accepts basic formats
without separators, week dates and 1-5-digit fractions, which are outside
the modelled grammar (canonical `isoformat()` output is always inside). -/

structure PyDatetime where
  year : Nat
  month : Nat
  day : Nat
  hour : Nat
  minute : Nat
  second : Nat
  microsecond : Nat
  offsetMinutes : Option Int
deriving DecidableEq

def isLeapYear (y : Nat) : Bool :=
  y % 4 == 0 && (y % 100 != 0 || y % 400 == 0)

def daysInMonth (y m : Nat) : Nat :=
  if m = 2 then (if isLeapYear y then 29 else 28)
  else if m = 4 ∨ m = 6 ∨ m = 9 ∨ m = 11 then 30
  else 31

/-- The field validation of the `datetime` constructor (plus the strict
24-hour bound on timezone offsets). -/
def datetimeValidB (d : PyDatetime) : Bool :=
  decide (1 ≤ d.year) && decide (d.year ≤ 9999) &&
  decide (1 ≤ d.month) && decide (d.month ≤ 12) &&
  decide (1 ≤ d.day) && decide (d.day ≤ daysInMonth d.year d.month) &&
  decide (d.hour < 24) && decide (d.minute < 60) && decide (d.second < 60) &&
  decide (d.microsecond < 1000000) &&
  (match d.offsetMinutes with
   | none => true
   | some off => decide ((-1440 : Int) < off) && decide (off < 1440))

/-- Zero-padded fixed-width decimal rendering (most significant digit
first; digits above the width are dropped). -/
def padNum : Nat → Nat → List Char
  | 0, _ => []
  | w + 1, n => Char.ofNat (48 + n / 10 ^ w % 10) :: padNum w n

/-- The microsecond part of `isoformat` (printed only when non-zero). -/
def isoMicro (us : Nat) : List Char :=
  if us = 0 then [] else '.' :: padNum 6 us

/-- The offset part of `isoformat` (empty for a naive datetime). -/
def isoOffset : Option Int → List Char
  | none => []
  | some off =>
    (if off < 0 then '-' else '+') ::
      (padNum 2 (off.natAbs / 60) ++ ':' :: padNum 2 (off.natAbs % 60))

/-- Embeds `datetime.isoformat()`: date, time (seconds always printed,
microseconds only when non-zero) and the UTC offset when aware. -/
def isoformat (d : PyDatetime) : List Char :=
  padNum 4 d.year ++ '-' :: padNum 2 d.month ++ '-' :: padNum 2 d.day ++
  'T' :: padNum 2 d.hour ++ ':' :: padNum 2 d.minute ++
  ':' :: padNum 2 d.second ++
  isoMicro d.microsecond ++ isoOffset d.offsetMinutes

def parseDigitsAux : Nat → Nat → List Char → Option (Nat × List Char)
  | 0, acc, l => some (acc, l)
  | w + 1, acc, l =>
    match l with
    | c :: rest =>
      if isDigitChar c then
        parseDigitsAux w (acc * 10 + (c.toNat - 48)) rest
      else none
    | [] => none

/-- Parse exactly `w` decimal digits. -/
def parseDigits (w : Nat) (l : List Char) : Option (Nat × List Char) :=
  parseDigitsAux w 0 l

def expectChar (c : Char) : List Char → Option (List Char)
  | x :: rest => if x = c then some rest else none
  | [] => none

/-- Optional seconds and microsecond parts of the time. -/
def parseSecondsFrac (l : List Char) : Option (Nat × Nat × List Char) :=
  match l with
  | ':' :: rest =>
    match parseDigits 2 rest with
    | none => none
    | some (ss, r1) =>
      match r1 with
      | '.' :: r2 =>
        match parseDigits 6 r2 with
        | none => none
        | some (us, r3) => some (ss, us, r3)
      | _ => some (ss, 0, r1)
  | _ => some (0, 0, l)

/-- Optional timezone suffix: nothing, `Z`, or a signed `HH:MM` offset
(bounded below 24 hours as `datetime.timezone` requires). -/
def parseTzOffset (l : List Char) : Option (Option Int × List Char) :=
  match l with
  | [] => some (none, [])
  | 'Z' :: rest => some (some 0, rest)
  | '+' :: rest =>
    match parseDigits 2 rest with
    | none => none
    | some (hh, r1) =>
      match expectChar ':' r1 with
      | none => none
      | some r2 =>
        match parseDigits 2 r2 with
        | none => none
        | some (mm, r3) =>
          if mm < 60 ∧ hh * 60 + mm < 1440 then
            some (some ((hh : Int) * 60 + mm), r3)
          else none
  | '-' :: rest =>
    match parseDigits 2 rest with
    | none => none
    | some (hh, r1) =>
      match expectChar ':' r1 with
      | none => none
      | some r2 =>
        match parseDigits 2 r2 with
        | none => none
        | some (mm, r3) =>
          if mm < 60 ∧ hh * 60 + mm < 1440 then
            some (some (-((hh : Int) * 60 + mm)), r3)
          else none
  | _ => none

/-- Embeds `datetime.fromisoformat` on the modelled grammar; the field
validation of the `datetime` constructor runs at the end. -/
def fromisoformat (l : List Char) : Option PyDatetime :=
  match parseDigits 4 l with
  | none => none
  | some (y, r1) =>
    match expectChar '-' r1 with
    | none => none
    | some r2 =>
      match parseDigits 2 r2 with
      | none => none
      | some (mo, r3) =>
        match expectChar '-' r3 with
        | none => none
        | some r4 =>
          match parseDigits 2 r4 with
          | none => none
          | some (dy, r5) =>
            match r5 with
            | [] =>
              if datetimeValidB ⟨y, mo, dy, 0, 0, 0, 0, none⟩ then
                some ⟨y, mo, dy, 0, 0, 0, 0, none⟩
              else none
            | sep :: r6 =>
              if sep = 'T' ∨ sep = ' ' then
                match parseDigits 2 r6 with
                | none => none
                | some (hh, r7) =>
                  match expectChar ':' r7 with
                  | none => none
                  | some r8 =>
                    match parseDigits 2 r8 with
                    | none => none
                    | some (mi, r9) =>
                      match parseSecondsFrac r9 with
                      | none => none
                      | some (ss, us, r10) =>
                        match parseTzOffset r10 with
                        | none => none
                        | some (off, r11) =>
                          if r11.isEmpty then
                            if datetimeValidB ⟨y, mo, dy, hh, mi, ss, us, off⟩
                              then some ⟨y, mo, dy, hh, mi, ss, us, off⟩
                            else none
                          else none
              else none

/-! ### uuid (`str(UUID)` / `UUID(hex=...)`) -/

/-- Zero-padded fixed-width lowercase hexadecimal rendering. -/
def hexPad : Nat → Nat → List Char
  | 0, _ => []
  | w + 1, n => hexDigitLower (n / 16 ^ w % 16) :: hexPad w n

/-- Embeds `str(uuid)`: 32 lowercase hex digits in 8-4-4-4-12 groups. -/
def uuidStr (n : Nat) : List Char :=
  hexPad 8 (n / 2 ^ 96) ++ '-' :: hexPad 4 (n / 2 ^ 80 % 2 ^ 16) ++
  '-' :: hexPad 4 (n / 2 ^ 64 % 2 ^ 16) ++
  '-' :: hexPad 4 (n / 2 ^ 48 % 2 ^ 16) ++ '-' :: hexPad 12 (n % 2 ^ 48)

/-- Remove every left-to-right non-overlapping occurrence of the
(non-empty) pattern — CPython `str.replace(pat, '')`. -/
def removeAll (pat : List Char) : List Char → List Char
  | [] => []
  | c :: rest =>
    if 0 < pat.length ∧ (c :: rest).take pat.length = pat then
      removeAll pat (rest.drop (pat.length - 1))
    else c :: removeAll pat rest
termination_by l => l.length
decreasing_by
  · simp only [List.length_drop, List.length_cons]
    omega
  · simp only [List.length_cons]
    omega

/-- CPython `str.strip` with a brace char set: strip braces from both
ends. -/
def stripBraces (s : List Char) : List Char :=
  ((s.dropWhile (fun c => c = '{' ∨ c = '}')).reverse.dropWhile
    (fun c => c = '{' ∨ c = '}')).reverse

/-- Accumulating hexadecimal reading (`int(hex, 16)` on plain digits). -/
def hexFoldAux : Nat → List Char → Option Nat
  | acc, [] => some acc
  | acc, c :: rest =>
    match hexVal c with
    | some v => hexFoldAux (acc * 16 + v) rest
    | none => none

/-- Embeds `uuid.UUID(hex=...)`: remove `urn:` and `uuid:` occurrences,
strip braces, remove dashes, require exactly 32 hexadecimal digits and
read the value. -/
def uuidParse (s : List Char) : Option Nat :=
  let s1 := removeAll ("uuid:".data) (removeAll ("urn:".data) s)
  let s2 := (stripBraces s1).filter (fun c => c ≠ '-')
  if s2.length = 32 then hexFoldAux 0 s2 else none

/-! ### The cursor codec itself (`MCPToolCallLogCursor`) -/

/-- Embeds `MCPToolCallLogCursor.encode(started_at, id)`:
`base64.urlsafe_b64encode(json.dumps({..}).encode()).decode()`. -/
def cursorEncode (started_at : PyDatetime) (id : Nat) : List Char :=
  b64EncodeBytes
    (utf8Encode (jsonDumpsPayload (isoformat started_at) (uuidStr id)))

/-- Embeds `MCPToolCallLogCursor.decode(cursor)`: base64-decode, UTF-8
decode, `json.loads`, then `datetime.fromisoformat(data["started_at"])`
and `UUID(data["id"])`; every raised exception is `none`. -/
def cursorDecode (s : List Char) : Option (PyDatetime × Nat) :=
  match b64DecodeChars s with
  | none => none
  | some bytes =>
    match utf8Decode bytes with
    | none => none
    | some txt =>
      match jsonLoads txt with
      | none => none
      | some j =>
        match jlookup j "started_at" with
        | none => none
        | some sa =>
          match asString sa with
          | none => none
          | some saStr =>
            match fromisoformat saStr with
            | none => none
            | some dt =>
              match jlookup j "id" with
              | none => none
              | some idv =>
                match asString idv with
                | none => none
                | some idStr =>
                  match uuidParse idStr with
                  | none => none
                  | some u => some (dt, u)

/-! ### Digit and fixed-width numeral lemmas -/

theorem decDigit_isDigit (d : Nat) (h : d < 10) :
    isDigitChar (Char.ofNat (48 + d)) = true ∧
      (Char.ofNat (48 + d)).toNat = 48 + d := by
  have hfin : ∀ x : Fin 10, isDigitChar (Char.ofNat (48 + x.val)) = true ∧
      (Char.ofNat (48 + x.val)).toNat = 48 + x.val := by decide
  exact hfin ⟨d, h⟩

theorem hexDigit_hexVal (d : Nat) (h : d < 16) :
    hexVal (hexDigitLower d) = some d := by
  have hfin : ∀ x : Fin 16, hexVal (hexDigitLower x.val) = some x.val := by
    decide
  exact hfin ⟨d, h⟩

theorem parseDigitsAux_padNum :
    ∀ (w acc n : Nat) (rest : List Char),
      parseDigitsAux w acc (padNum w n ++ rest) =
        some (acc * 10 ^ w + n % 10 ^ w, rest) := by
  intro w
  induction w with
  | zero =>
    intro acc n rest
    simp [padNum, parseDigitsAux, Nat.mod_one]
  | succ w ih =>
    intro acc n rest
    have hd := decDigit_isDigit (n / 10 ^ w % 10) (Nat.mod_lt _ (by norm_num))
    rw [padNum, List.cons_append, parseDigitsAux]
    rw [if_pos hd.1, hd.2]
    have harith : 48 + n / 10 ^ w % 10 - 48 = n / 10 ^ w % 10 := by omega
    rw [harith, ih]
    congr 2
    have hsplit : n % 10 ^ (w + 1) = n % 10 ^ w + 10 ^ w * (n / 10 ^ w % 10) := by
      rw [pow_succ]
      exact Nat.mod_mul
    rw [hsplit]
    ring

theorem parseDigits_padNum (w n : Nat) (h : n < 10 ^ w) (rest : List Char) :
    parseDigits w (padNum w n ++ rest) = some (n, rest) := by
  rw [parseDigits, parseDigitsAux_padNum]
  rw [Nat.zero_mul, Nat.zero_add, Nat.mod_eq_of_lt h]

theorem hexFoldAux_hexPad :
    ∀ (w acc n : Nat) (rest : List Char),
      hexFoldAux acc (hexPad w n ++ rest) =
        hexFoldAux (acc * 16 ^ w + n % 16 ^ w) rest := by
  intro w
  induction w with
  | zero =>
    intro acc n rest
    simp [hexPad, hexFoldAux, Nat.mod_one]
  | succ w ih =>
    intro acc n rest
    have hd := hexDigit_hexVal (n / 16 ^ w % 16) (Nat.mod_lt _ (by norm_num))
    rw [hexPad, List.cons_append, hexFoldAux, hd]
    show hexFoldAux (acc * 16 + n / 16 ^ w % 16) (hexPad w n ++ rest) =
      hexFoldAux (acc * 16 ^ (w + 1) + n % 16 ^ (w + 1)) rest
    rw [ih]
    congr 1
    have hsplit : n % 16 ^ (w + 1) = n % 16 ^ w + 16 ^ w * (n / 16 ^ w % 16) := by
      rw [pow_succ]
      exact Nat.mod_mul
    rw [hsplit]
    ring

theorem padNum_mem (w n : Nat) :
    ∀ c ∈ padNum w n, ∃ d, d < 10 ∧ c = Char.ofNat (48 + d) := by
  induction w generalizing n with
  | zero => intro c hc; simp [padNum] at hc
  | succ w ih =>
    intro c hc
    rw [padNum] at hc
    rcases List.mem_cons.mp hc with h | h
    · exact ⟨n / 10 ^ w % 10, Nat.mod_lt _ (by norm_num), h⟩
    · exact ih n c h

theorem hexPad_mem (w n : Nat) :
    ∀ c ∈ hexPad w n, ∃ d, d < 16 ∧ c = hexDigitLower d := by
  induction w generalizing n with
  | zero => intro c hc; simp [hexPad] at hc
  | succ w ih =>
    intro c hc
    rw [hexPad] at hc
    rcases List.mem_cons.mp hc with h | h
    · exact ⟨n / 16 ^ w % 16, Nat.mod_lt _ (by norm_num), h⟩
    · exact ih n c h

/-! ### Plain characters and JSON string round-trips -/

/-- Printable ASCII that needs no JSON escaping — every character of a
canonical timestamp or UUID rendering is plain. -/
def plainChar (c : Char) : Prop :=
  0x20 ≤ c.toNat ∧ c.toNat < 0x7F ∧ c ≠ '"' ∧ c ≠ '\\'

instance (c : Char) : Decidable (plainChar c) := by
  unfold plainChar
  exact inferInstance

theorem jsonEscapeChar_plain {c : Char} (h : plainChar c) :
    jsonEscapeChar c = [c] := by
  obtain ⟨h1, h2, h3, h4⟩ := h
  rw [jsonEscapeChar, if_neg h3, if_neg h4, if_neg (by omega),
    if_neg (by omega), if_neg (by omega), if_neg (by omega),
    if_neg (by omega), if_neg (by omega)]

theorem jsonEscapeList_plain {s : List Char} (h : ∀ c ∈ s, plainChar c) :
    jsonEscapeList s = s := by
  induction s with
  | nil => rfl
  | cons c rest ih =>
    rw [jsonEscapeList, jsonEscapeChar_plain (h c (by simp)),
      ih (fun x hx => h x (by simp [hx]))]
    rfl

theorem jsonStringStep_quote (rest : List Char) :
    jsonStringStep ('"' :: rest) = .done rest := rfl

theorem jsonStringStep_plain {c : Char} (h : plainChar c) (rest : List Char) :
    jsonStringStep (c :: rest) = .item c rest := by
  obtain ⟨h1, h2, h3, h4⟩ := h
  simp only [jsonStringStep.eq_def]
  rw [if_neg h3, if_neg h4, if_neg (by omega)]

theorem parseJStringBody_closed :
    ∀ (s : List Char), (∀ c ∈ s, plainChar c) →
      ∀ (fuel : Nat) (tail : List Char), s.length < fuel →
        parseJStringBody fuel (s ++ '"' :: tail) = some (s, tail) := by
  intro s
  induction s with
  | nil =>
    intro _ fuel tail hfuel
    cases fuel with
    | zero => omega
    | succ f =>
      rw [List.nil_append, parseJStringBody, jsonStringStep_quote]
  | cons c rest ih =>
    intro h fuel tail hfuel
    cases fuel with
    | zero => simp at hfuel
    | succ f =>
      rw [List.cons_append, parseJStringBody,
        jsonStringStep_plain (h c (by simp))]
      show (match parseJStringBody f (rest ++ '"' :: tail) with
        | some (cs, r) => some (c :: cs, r)
        | none => none) = some (c :: rest, tail)
      rw [ih (fun x hx => h x (by simp [hx])) f tail (by simp at hfuel; omega)]

/-- Parsing a dumped JSON string (quote, escaped body, quote) recovers
the original characters. -/
theorem parseJStringBody_dumped (s : List Char) (h : ∀ c ∈ s, plainChar c)
    (tail : List Char) :
    parseJStringBody ((jsonEscapeList s ++ '"' :: tail).length + 1)
      (jsonEscapeList s ++ '"' :: tail) = some (s, tail) := by
  rw [jsonEscapeList_plain h]
  exact parseJStringBody_closed s h _ tail
    (by rw [List.length_append]; simp; omega)

/-! ### datetime round-trip -/

theorem datetimeValid_bounds {d : PyDatetime} (h : datetimeValidB d = true) :
    1 ≤ d.year ∧ d.year ≤ 9999 ∧ 1 ≤ d.month ∧ d.month ≤ 12 ∧ 1 ≤ d.day ∧
    d.day ≤ daysInMonth d.year d.month ∧ d.hour < 24 ∧ d.minute < 60 ∧
    d.second < 60 ∧ d.microsecond < 1000000 := by
  simp only [datetimeValidB, Bool.and_eq_true, decide_eq_true_eq] at h
  tauto

theorem datetimeValid_offset {d : PyDatetime} {off : Int}
    (h : datetimeValidB d = true) (ho : d.offsetMinutes = some off) :
    -1440 < off ∧ off < 1440 := by
  simp only [datetimeValidB, ho, Bool.and_eq_true, decide_eq_true_eq] at h
  tauto

theorem parseTzOffset_isoOffset (offOpt : Option Int)
    (hb : ∀ off, offOpt = some off → -1440 < off ∧ off < 1440) :
    parseTzOffset (isoOffset offOpt) = some (offOpt, []) := by
  cases offOpt with
  | none => rfl
  | some off =>
    obtain ⟨hb1, hb2⟩ := hb off rfl
    have habs : off.natAbs < 1440 := by omega
    have hdm : off.natAbs / 60 * 60 + off.natAbs % 60 = off.natAbs := by
      have := Nat.div_add_mod off.natAbs 60
      omega
    have hh2 : ∀ r, parseDigits 2 (padNum 2 (off.natAbs / 60) ++ r) =
        some (off.natAbs / 60, r) :=
      fun r => parseDigits_padNum 2 _ (by omega) r
    have hm2 : ∀ r, parseDigits 2 (padNum 2 (off.natAbs % 60) ++ r) =
        some (off.natAbs % 60, r) :=
      fun r => parseDigits_padNum 2 _ (by omega) r
    have hm2n : parseDigits 2 (padNum 2 (off.natAbs % 60)) =
        some (off.natAbs % 60, []) := by
      have := hm2 []
      rwa [List.append_nil] at this
    have hcond : off.natAbs % 60 < 60 ∧
        off.natAbs / 60 * 60 + off.natAbs % 60 < 1440 := by omega
    by_cases hneg : off < 0
    · have hval : -(((off.natAbs / 60 : Nat) : Int) * 60 +
          ((off.natAbs % 60 : Nat) : Int)) = off := by
        omega
      simp only [isoOffset, if_pos hneg, parseTzOffset, List.cons_append,
        hh2, expectChar, if_pos rfl, if_true, hm2n, if_pos hcond, hval]
    · have hval : ((off.natAbs / 60 : Nat) : Int) * 60 +
          ((off.natAbs % 60 : Nat) : Int) = off := by
        omega
      simp only [isoOffset, if_neg hneg, parseTzOffset, List.cons_append,
        hh2, expectChar, if_pos rfl, if_true, hm2n, if_pos hcond, hval]

theorem parseSecondsFrac_iso (ss us : Nat) (hss : ss < 100)
    (hus : us < 1000000) (tail : List Char)
    (htail : tail = [] ∨ ∃ c r, tail = c :: r ∧ c ≠ '.') :
    parseSecondsFrac (':' :: (padNum 2 ss ++ (isoMicro us ++ tail))) =
      some (ss, us, tail) := by
  have hs2 : ∀ r, parseDigits 2 (padNum 2 ss ++ r) = some (ss, r) :=
    fun r => parseDigits_padNum 2 _ (by omega) r
  have hs2n : parseDigits 2 (padNum 2 ss) = some (ss, []) := by
    have := hs2 []
    rwa [List.append_nil] at this
  by_cases hus0 : us = 0
  · subst hus0
    have hmic : isoMicro 0 = [] := rfl
    rcases htail with htail | ⟨c, r, htail, hc⟩
    · subst htail
      simp only [hmic, List.nil_append, List.append_nil, parseSecondsFrac,
        hs2n]
    · subst htail
      simp only [hmic, List.nil_append, parseSecondsFrac, hs2]
      split
      · rename_i r2 heq
        injection heq with h1 h2
        exact absurd h1 hc
      · rfl
  · have hmic : isoMicro us = '.' :: padNum 6 us := by
      rw [isoMicro, if_neg hus0]
    have h6 : ∀ r, parseDigits 6 (padNum 6 us ++ r) = some (us, r) :=
      fun r => parseDigits_padNum 6 _ (by omega) r
    simp only [hmic, List.cons_append, parseSecondsFrac, hs2, h6]

/-- `fromisoformat` inverts `isoformat` on valid datetimes. -/
theorem fromisoformat_isoformat (d : PyDatetime)
    (h : datetimeValidB d = true) :
    fromisoformat (isoformat d) = some d := by
  obtain ⟨hy1, hy2, hm1, hm2, hd1, hd2, hhh, hmi, hsec, hus⟩ :=
    datetimeValid_bounds h
  have hy : ∀ r, parseDigits 4 (padNum 4 d.year ++ r) = some (d.year, r) :=
    fun r => parseDigits_padNum 4 _ (by omega) r
  have hmo : ∀ r, parseDigits 2 (padNum 2 d.month ++ r) = some (d.month, r) :=
    fun r => parseDigits_padNum 2 _ (by omega) r
  have hdim : daysInMonth d.year d.month ≤ 31 := by
    rw [daysInMonth]
    split_ifs <;> omega
  have hdy : ∀ r, parseDigits 2 (padNum 2 d.day ++ r) = some (d.day, r) :=
    fun r => parseDigits_padNum 2 _ (by omega) r
  have hho : ∀ r, parseDigits 2 (padNum 2 d.hour ++ r) = some (d.hour, r) :=
    fun r => parseDigits_padNum 2 _ (by omega) r
  have hmin : ∀ r, parseDigits 2 (padNum 2 d.minute ++ r) =
      some (d.minute, r) :=
    fun r => parseDigits_padNum 2 _ (by omega) r
  have htail : isoOffset d.offsetMinutes = [] ∨
      ∃ c r, isoOffset d.offsetMinutes = c :: r ∧ c ≠ '.' := by
    cases hoo : d.offsetMinutes with
    | none => exact Or.inl rfl
    | some off =>
      refine Or.inr ?_
      by_cases hneg : off < 0
      · exact ⟨'-', _, by rw [isoOffset, if_pos hneg], by decide⟩
      · exact ⟨'+', _, by rw [isoOffset, if_neg hneg], by decide⟩
  have hsf : parseSecondsFrac
      (':' :: (padNum 2 d.second ++
        (isoMicro d.microsecond ++ isoOffset d.offsetMinutes))) =
      some (d.second, d.microsecond, isoOffset d.offsetMinutes) :=
    parseSecondsFrac_iso d.second d.microsecond (by omega) (by omega) _ htail
  have htz : parseTzOffset (isoOffset d.offsetMinutes) =
      some (d.offsetMinutes, []) :=
    parseTzOffset_isoOffset d.offsetMinutes
      (fun off ho => datetimeValid_offset h ho)
  have heta : (⟨d.year, d.month, d.day, d.hour, d.minute, d.second,
      d.microsecond, d.offsetMinutes⟩ : PyDatetime) = d := rfl
  simp only [isoformat, List.cons_append, List.append_assoc]
  simp only [fromisoformat, hy, hmo, hdy, hho, hmin, hsf, htz, expectChar,
    if_pos rfl, if_true, true_or, List.isEmpty_nil, heta, h, if_pos trivial]

/-! ### uuid round-trip -/

theorem hexDigitLower_facts (dd : Nat) (h : dd < 16) :
    hexDigitLower dd ≠ ':' ∧ hexDigitLower dd ≠ '{' ∧
    hexDigitLower dd ≠ '}' ∧ hexDigitLower dd ≠ '-' ∧
    plainChar (hexDigitLower dd) := by
  have hfin : ∀ x : Fin 16, hexDigitLower x.val ≠ ':' ∧
      hexDigitLower x.val ≠ '{' ∧ hexDigitLower x.val ≠ '}' ∧
      hexDigitLower x.val ≠ '-' ∧ plainChar (hexDigitLower x.val) := by
    decide
  exact hfin ⟨dd, h⟩

theorem hexPad_length (w : Nat) : ∀ n, (hexPad w n).length = w := by
  induction w with
  | zero => intro n; rfl
  | succ w ih =>
    intro n
    rw [hexPad, List.length_cons, ih]

theorem uuidStr_mem (n : Nat) :
    ∀ c ∈ uuidStr n, (∃ d, d < 16 ∧ c = hexDigitLower d) ∨ c = '-' := by
  intro c hc
  rw [uuidStr] at hc
  rcases List.mem_append.mp hc with h1 | h1
  · rcases List.mem_append.mp h1 with h2 | h2
    · rcases List.mem_append.mp h2 with h3 | h3
      · rcases List.mem_append.mp h3 with h4 | h4
        · exact Or.inl (hexPad_mem _ _ c h4)
        · rcases List.mem_cons.mp h4 with h5 | h5
          · exact Or.inr h5
          · exact Or.inl (hexPad_mem _ _ c h5)
      · rcases List.mem_cons.mp h3 with h5 | h5
        · exact Or.inr h5
        · exact Or.inl (hexPad_mem _ _ c h5)
    · rcases List.mem_cons.mp h2 with h5 | h5
      · exact Or.inr h5
      · exact Or.inl (hexPad_mem _ _ c h5)
  · rcases List.mem_cons.mp h1 with h5 | h5
    · exact Or.inr h5
    · exact Or.inl (hexPad_mem _ _ c h5)

theorem uuidStr_no_colon (n : Nat) : ':' ∉ uuidStr n := by
  intro hc
  rcases uuidStr_mem n ':' hc with ⟨d, hd, he⟩ | he
  · exact (hexDigitLower_facts d hd).1 he.symm
  · exact absurd he (by decide)

theorem uuidStr_no_braces (n : Nat) :
    ∀ c ∈ uuidStr n, ¬(c = '{' ∨ c = '}') := by
  intro c hc hbr
  rcases uuidStr_mem n c hc with ⟨d, hd, he⟩ | he
  · subst he
    rcases hbr with hb | hb
    · exact (hexDigitLower_facts d hd).2.1 hb
    · exact (hexDigitLower_facts d hd).2.2.1 hb
  · subst he
    rcases hbr with hb | hb <;> exact absurd hb (by decide)

theorem uuidStr_plain (n : Nat) : ∀ c ∈ uuidStr n, plainChar c := by
  intro c hc
  rcases uuidStr_mem n c hc with ⟨d, hd, he⟩ | he
  · subst he
    exact (hexDigitLower_facts d hd).2.2.2.2
  · subst he
    decide

theorem removeAll_of_no_colon (pat : List Char) (hp : ':' ∈ pat) :
    ∀ s : List Char, ':' ∉ s → removeAll pat s = s := by
  intro s
  induction s with
  | nil =>
    intro _
    rw [removeAll]
  | cons c rest ih =>
    intro hs
    rw [removeAll]
    rw [if_neg ?_]
    · rw [ih (fun hmem => hs (List.mem_cons_of_mem c hmem))]
    · rintro ⟨-, htake⟩
      exact hs (List.mem_of_mem_take (htake ▸ hp))

theorem dropWhile_of_none (p : Char → Bool) (l : List Char)
    (h : ∀ c ∈ l, p c = false) : l.dropWhile p = l := by
  cases l with
  | nil => rfl
  | cons c rest =>
    rw [List.dropWhile_cons, h c (by simp)]
    simp

theorem stripBraces_id (s : List Char)
    (h : ∀ c ∈ s, ¬(c = '{' ∨ c = '}')) : stripBraces s = s := by
  rw [stripBraces]
  rw [dropWhile_of_none _ s (fun c hc => by simp [h c hc])]
  rw [dropWhile_of_none _ s.reverse
    (fun c hc => by simp [h c (List.mem_reverse.mp hc)])]
  exact List.reverse_reverse s

theorem uuidStr_filter (n : Nat) :
    (uuidStr n).filter (fun c => c ≠ '-') =
      hexPad 8 (n / 2 ^ 96) ++ (hexPad 4 (n / 2 ^ 80 % 2 ^ 16) ++
      (hexPad 4 (n / 2 ^ 64 % 2 ^ 16) ++ (hexPad 4 (n / 2 ^ 48 % 2 ^ 16) ++
      hexPad 12 (n % 2 ^ 48)))) := by
  have hfil : ∀ w m, (hexPad w m).filter (fun c => c ≠ '-') = hexPad w m := by
    intro w m
    apply List.filter_eq_self.mpr
    intro c hc
    rcases hexPad_mem w m c hc with ⟨d, hd, he⟩
    subst he
    simp [(hexDigitLower_facts d hd).2.2.2.1]
  rw [uuidStr]
  simp only [List.filter_append, List.filter_cons, List.cons_append, hfil]
  norm_num

/-- `UUID(str(u))` recovers `u`. -/
theorem uuidParse_uuidStr (n : Nat) (h : n < 2 ^ 128) :
    uuidParse (uuidStr n) = some n := by
  have hcolon1 : ':' ∈ ("urn:".data) := by decide
  have hcolon2 : ':' ∈ ("uuid:".data) := by decide
  have hr1 : removeAll ("urn:".data) (uuidStr n) = uuidStr n :=
    removeAll_of_no_colon _ hcolon1 _ (uuidStr_no_colon n)
  have hr2 : removeAll ("uuid:".data) (uuidStr n) = uuidStr n :=
    removeAll_of_no_colon _ hcolon2 _ (uuidStr_no_colon n)
  have hstrip : stripBraces (uuidStr n) = uuidStr n :=
    stripBraces_id _ (uuidStr_no_braces n)
  have hlen : ((uuidStr n).filter (fun c => c ≠ '-')).length = 32 := by
    rw [uuidStr_filter]
    simp only [List.length_append, hexPad_length]
  have ha : n / 2 ^ 96 < 16 ^ 8 := by omega
  have hb : n / 2 ^ 80 % 2 ^ 16 < 16 ^ 4 := by omega
  have hc : n / 2 ^ 64 % 2 ^ 16 < 16 ^ 4 := by omega
  have hd : n / 2 ^ 48 % 2 ^ 16 < 16 ^ 4 := by omega
  have he : n % 2 ^ 48 < 16 ^ 12 := by omega
  have hfold : hexFoldAux 0 ((uuidStr n).filter (fun c => c ≠ '-')) =
      some n := by
    rw [uuidStr_filter]
    rw [hexFoldAux_hexPad, hexFoldAux_hexPad, hexFoldAux_hexPad,
      hexFoldAux_hexPad]
    rw [show hexPad 12 (n % 2 ^ 48) = hexPad 12 (n % 2 ^ 48) ++ [] from
      (List.append_nil _).symm]
    rw [hexFoldAux_hexPad]
    rw [hexFoldAux]
    congr 1
    omega
  rw [uuidParse]
  simp only [hr1, hr2, hstrip, hlen, if_pos rfl, if_true, hfold]

/-! ### Parsing dumped payloads -/

theorem skipWs_cons_false {c : Char} (h : isJsonWs c = false)
    (l : List Char) : skipWs (c :: l) = c :: l := by
  simp [skipWs, h]

theorem skipWs_space (l : List Char) : skipWs (' ' :: l) = skipWs l := by
  simp [skipWs, isJsonWs]

theorem jsonDumpsString_shape (s : List Char) (tail : List Char) :
    jsonDumpsString s ++ tail = '"' :: (jsonEscapeList s ++ '"' :: tail) := by
  rw [jsonDumpsString]
  simp [List.append_assoc]

/-- Parsing a dumped string value. -/
theorem parseJValue_strLit (sval : List Char) (hs : ∀ c ∈ sval, plainChar c)
    (f : Nat) (l tail : List Char)
    (hl : skipWs l = jsonDumpsString sval ++ tail) :
    parseJValue (f + 1) l = some (.str (String.mk sval), tail) := by
  have hshape : skipWs l = '"' :: (jsonEscapeList sval ++ '"' :: tail) := by
    rw [hl, jsonDumpsString_shape]
  simp only [parseJValue, hshape]
  rw [if_true, parseJStringBody_dumped sval hs tail,
    if_neg (by decide), if_neg (by decide)]

/-- Parsing a dumped key-value member. -/
theorem parseJMember_dumped (key sval : List Char)
    (hkey : ∀ c ∈ key, plainChar c) (hs : ∀ c ∈ sval, plainChar c)
    (f : Nat) (l tail : List Char)
    (hl : skipWs l = jsonDumpsString key ++
      ':' :: ' ' :: (jsonDumpsString sval ++ tail)) :
    parseJMember (f + 2) l =
      some ((String.mk key, .str (String.mk sval)), tail) := by
  have hshape : skipWs l = '"' :: (jsonEscapeList key ++
      '"' :: (':' :: ' ' :: (jsonDumpsString sval ++ tail))) := by
    rw [hl, jsonDumpsString_shape]
  have hval : parseJValue (f + 1) (' ' :: (jsonDumpsString sval ++ tail)) =
      some (.str (String.mk sval), tail) := by
    apply parseJValue_strLit sval hs f _ tail
    rw [skipWs_space]
    rw [jsonDumpsString_shape]
    exact skipWs_cons_false (by decide) _
  have hcolon : ∀ r : List Char, skipWs (':' :: r) = ':' :: r :=
    fun r => skipWs_cons_false (by decide) r
  simp only [parseJMember, hshape, parseJStringBody_dumped key hkey, hcolon,
    hval]

theorem parseJMembersRest_close (f : Nat) (l tail : List Char)
    (hl : skipWs l = '}' :: tail) :
    parseJMembersRest (f + 1) l = some ([], tail) := by
  simp only [parseJMembersRest, hl]

theorem parseJMembersRest_idClose (key sval : List Char)
    (hkey : ∀ c ∈ key, plainChar c) (hs : ∀ c ∈ sval, plainChar c)
    (f : Nat) (l tail : List Char)
    (hl : skipWs l = ',' :: ' ' :: (jsonDumpsString key ++
      ':' :: ' ' :: (jsonDumpsString sval ++ '}' :: tail))) :
    parseJMembersRest (f + 3) l =
      some ([(String.mk key, .str (String.mk sval))], tail) := by
  have hm : parseJMember (f + 2) (' ' :: (jsonDumpsString key ++
      ':' :: ' ' :: (jsonDumpsString sval ++ '}' :: tail))) =
      some ((String.mk key, .str (String.mk sval)), '}' :: tail) := by
    apply parseJMember_dumped key sval hkey hs f
    rw [skipWs_space, jsonDumpsString_shape]
    exact skipWs_cons_false (by decide) _
  have hr : parseJMembersRest (f + 2) ('}' :: tail) = some ([], tail) :=
    parseJMembersRest_close (f + 1) _ tail (skipWs_cons_false (by decide) _)
  show parseJMembersRest ((f + 2) + 1) l = _
  rw [parseJMembersRest]
  simp only [hl, hm, hr]

theorem parseJValue_payload (sa idv : List Char)
    (hsa : ∀ c ∈ sa, plainChar c) (hidv : ∀ c ∈ idv, plainChar c)
    (f : Nat) :
    parseJValue (f + 4) (jsonDumpsPayload sa idv) =
      some (.obj [(String.mk ("started_at".data), .str (String.mk sa)),
                  (String.mk ("id".data), .str (String.mk idv))], []) := by
  have hkeyS : ∀ c ∈ ("started_at".data), plainChar c := by decide
  have hkeyI : ∀ c ∈ ("id".data), plainChar c := by decide
  have hrest : skipWs (jsonDumpsString ("started_at".data) ++
      ':' :: ' ' :: (jsonDumpsString sa ++
      ',' :: ' ' :: (jsonDumpsString ("id".data) ++
      ':' :: ' ' :: (jsonDumpsString idv ++ ['}'])))) =
      '"' :: (jsonEscapeList ("started_at".data) ++
      '"' :: (':' :: ' ' :: (jsonDumpsString sa ++
      ',' :: ' ' :: (jsonDumpsString ("id".data) ++
      ':' :: ' ' :: (jsonDumpsString idv ++ ['}']))))) := by
    rw [jsonDumpsString_shape]
    exact skipWs_cons_false (by decide) _
  have hm : parseJMember (f + 3)
      ('"' :: (jsonEscapeList ("started_at".data) ++
      '"' :: (':' :: ' ' :: (jsonDumpsString sa ++
      ',' :: ' ' :: (jsonDumpsString ("id".data) ++
      ':' :: ' ' :: (jsonDumpsString idv ++ ['}'])))))) =
      some ((String.mk ("started_at".data), .str (String.mk sa)),
        ',' :: ' ' :: (jsonDumpsString ("id".data) ++
        ':' :: ' ' :: (jsonDumpsString idv ++ ['}']))) := by
    apply parseJMember_dumped ("started_at".data) sa hkeyS hsa (f + 1)
    rw [skipWs_cons_false (by decide), jsonDumpsString_shape ("started_at".data)]
  have hr : parseJMembersRest (f + 3)
      (',' :: ' ' :: (jsonDumpsString ("id".data) ++
        ':' :: ' ' :: (jsonDumpsString idv ++ ['}']))) =
      some ([(String.mk ("id".data), .str (String.mk idv))], []) := by
    apply parseJMembersRest_idClose ("id".data) idv hkeyI hidv f
    exact skipWs_cons_false (by decide) _
  show parseJValue ((f + 3) + 1) (jsonDumpsPayload sa idv) = _
  simp only [parseJValue, jsonDumpsPayload,
    skipWs_cons_false (show isJsonWs '\x7b' = false from by decide),
    hrest, eq_self_iff_true, if_true]
  show (match parseJMember (f + 3)
      ('"' :: (jsonEscapeList ("started_at".data) ++
      '"' :: (':' :: ' ' :: (jsonDumpsString sa ++
      ',' :: ' ' :: (jsonDumpsString ("id".data) ++
      ':' :: ' ' :: (jsonDumpsString idv ++ ['}'])))))) with
    | none => none
    | some (kv, rest2) =>
      match parseJMembersRest (f + 3) rest2 with
      | none => none
      | some (kvs, rest3) => some (Json.obj (kv :: kvs), rest3)) =
    some (Json.obj
      [(String.mk ("started_at".data), Json.str (String.mk sa)),
       (String.mk ("id".data), Json.str (String.mk idv))], [])
  rw [hm]
  show (match parseJMembersRest (f + 3)
      (',' :: ' ' :: (jsonDumpsString ("id".data) ++
      ':' :: ' ' :: (jsonDumpsString idv ++ ['}']))) with
    | none => none
    | some (kvs, rest3) => some (Json.obj
        ((String.mk ("started_at".data), Json.str (String.mk sa)) :: kvs),
        rest3)) =
    some (Json.obj
      [(String.mk ("started_at".data), Json.str (String.mk sa)),
       (String.mk ("id".data), Json.str (String.mk idv))], [])
  rw [hr]

theorem parseJValue_startedOnly (sa : List Char)
    (hsa : ∀ c ∈ sa, plainChar c) (f : Nat) :
    parseJValue (f + 4) (jsonDumpsStartedOnly sa) =
      some (.obj [(String.mk ("started_at".data), .str (String.mk sa))],
        []) := by
  have hkeyS : ∀ c ∈ ("started_at".data), plainChar c := by decide
  have hrest : skipWs (jsonDumpsString ("started_at".data) ++
      ':' :: ' ' :: (jsonDumpsString sa ++ ['}'])) =
      '"' :: (jsonEscapeList ("started_at".data) ++
      '"' :: (':' :: ' ' :: (jsonDumpsString sa ++ ['}']))) := by
    rw [jsonDumpsString_shape]
    exact skipWs_cons_false (by decide) _
  have hm : parseJMember (f + 3)
      ('"' :: (jsonEscapeList ("started_at".data) ++
      '"' :: (':' :: ' ' :: (jsonDumpsString sa ++ ['}'])))) =
      some ((String.mk ("started_at".data), .str (String.mk sa)),
        ['}']) := by
    apply parseJMember_dumped ("started_at".data) sa hkeyS hsa (f + 1)
    rw [skipWs_cons_false (by decide), jsonDumpsString_shape ("started_at".data)]
  have hr : parseJMembersRest (f + 3) ['}'] = some ([], []) :=
    parseJMembersRest_close (f + 2) _ [] (skipWs_cons_false (by decide) _)
  show parseJValue ((f + 3) + 1) (jsonDumpsStartedOnly sa) = _
  simp only [parseJValue, jsonDumpsStartedOnly,
    skipWs_cons_false (show isJsonWs '\x7b' = false from by decide),
    hrest, eq_self_iff_true, if_true]
  show (match parseJMember (f + 3)
      ('"' :: (jsonEscapeList ("started_at".data) ++
      '"' :: (':' :: ' ' :: (jsonDumpsString sa ++ ['}'])))) with
    | none => none
    | some (kv, rest2) =>
      match parseJMembersRest (f + 3) rest2 with
      | none => none
      | some (kvs, rest3) => some (Json.obj (kv :: kvs), rest3)) =
    some (Json.obj
      [(String.mk ("started_at".data), Json.str (String.mk sa))], [])
  rw [hm]
  show (match parseJMembersRest (f + 3) ['}'] with
    | none => none
    | some (kvs, rest3) => some (Json.obj
        ((String.mk ("started_at".data), Json.str (String.mk sa)) :: kvs),
        rest3)) =
    some (Json.obj
      [(String.mk ("started_at".data), Json.str (String.mk sa))], [])
  rw [hr]

/-- `json.loads` of the dumped two-member payload. -/
theorem jsonLoads_payload (sa idv : List Char)
    (hsa : ∀ c ∈ sa, plainChar c) (hidv : ∀ c ∈ idv, plainChar c) :
    jsonLoads (jsonDumpsPayload sa idv) =
      some (.obj [(String.mk ("started_at".data), .str (String.mk sa)),
                  (String.mk ("id".data), .str (String.mk idv))]) := by
  rw [jsonLoads, parseJValue_payload sa idv hsa hidv]
  rfl

/-- `json.loads` of the dumped started-at-only payload. -/
theorem jsonLoads_startedOnly (sa : List Char)
    (hsa : ∀ c ∈ sa, plainChar c) :
    jsonLoads (jsonDumpsStartedOnly sa) =
      some (.obj [(String.mk ("started_at".data), .str (String.mk sa))]) := by
  rw [jsonLoads, parseJValue_startedOnly sa hsa]
  rfl

/-! ### Plainness of canonical renderings -/

theorem padNum_plain (w n : Nat) : ∀ c ∈ padNum w n, plainChar c := by
  intro c hc
  obtain ⟨d, hd, rfl⟩ := padNum_mem w n c hc
  have hfin : ∀ x : Fin 10, plainChar (Char.ofNat (48 + x.val)) := by decide
  exact hfin ⟨d, hd⟩

theorem hexDigitLower_plain (d : Nat) (h : d < 16) :
    plainChar (hexDigitLower d) := by
  have hfin : ∀ x : Fin 16, plainChar (hexDigitLower x.val) := by decide
  exact hfin ⟨d, h⟩

theorem isoMicro_plain (us : Nat) : ∀ c ∈ isoMicro us, plainChar c := by
  intro c hc
  rw [isoMicro] at hc
  split at hc
  · simp at hc
  · rcases List.mem_cons.mp hc with h | h
    · subst h; decide
    · exact padNum_plain 6 us c h

theorem isoOffset_plain (o : Option Int) :
    ∀ c ∈ isoOffset o, plainChar c := by
  intro c hc
  match o with
  | none => simp [isoOffset] at hc
  | some off =>
    rw [isoOffset] at hc
    rcases List.mem_cons.mp hc with h | h
    · by_cases ho : off < 0
      · rw [if_pos ho] at h; subst h; decide
      · rw [if_neg ho] at h; subst h; decide
    · rcases List.mem_append.mp h with h2 | h2
      · exact padNum_plain _ _ c h2
      · rcases List.mem_cons.mp h2 with h3 | h3
        · subst h3; decide
        · exact padNum_plain _ _ c h3

theorem isoformat_plain (d : PyDatetime) :
    ∀ c ∈ isoformat d, plainChar c := by
  intro c hc
  rw [isoformat] at hc
  rcases List.mem_append.mp hc with h1 | h1
  · rcases List.mem_append.mp h1 with h2 | h2
    · rcases List.mem_append.mp h2 with h3 | h3
      · rcases List.mem_append.mp h3 with h4 | h4
        · rcases List.mem_append.mp h4 with h5 | h5
          · rcases List.mem_append.mp h5 with h6 | h6
            · rcases List.mem_append.mp h6 with h7 | h7
              · exact padNum_plain _ _ c h7
              · rcases List.mem_cons.mp h7 with h8 | h8
                · subst h8; decide
                · exact padNum_plain _ _ c h8
            · rcases List.mem_cons.mp h6 with h8 | h8
              · subst h8; decide
              · exact padNum_plain _ _ c h8
          · rcases List.mem_cons.mp h5 with h8 | h8
            · subst h8; decide
            · exact padNum_plain _ _ c h8
        · rcases List.mem_cons.mp h4 with h8 | h8
          · subst h8; decide
          · exact padNum_plain _ _ c h8
      · rcases List.mem_cons.mp h3 with h8 | h8
        · subst h8; decide
        · exact padNum_plain _ _ c h8
    · exact isoMicro_plain _ c h2
  · exact isoOffset_plain _ c h1

/-! ### The cursor round-trip on canonical encodings -/

theorem cursorDecode_encode (t : PyDatetime) (u : Nat)
    (ht : datetimeValidB t = true) (hu : u < 2 ^ 128) :
    cursorDecode (cursorEncode t u) = some (t, u) := by
  have hb64 : b64DecodeChars (b64EncodeBytes
      (utf8Encode (jsonDumpsPayload (isoformat t) (uuidStr u)))) =
      some (utf8Encode (jsonDumpsPayload (isoformat t) (uuidStr u))) :=
    b64DecodeChars_encode _ (utf8Encode_lt_256 _)
  have hutf : utf8Decode (utf8Encode
      (jsonDumpsPayload (isoformat t) (uuidStr u))) =
      some (jsonDumpsPayload (isoformat t) (uuidStr u)) :=
    utf8Decode_encode _
  have hjson : jsonLoads (jsonDumpsPayload (isoformat t) (uuidStr u)) =
      some (.obj [(String.mk ("started_at".data),
                    .str (String.mk (isoformat t))),
                  (String.mk ("id".data), .str (String.mk (uuidStr u)))]) :=
    jsonLoads_payload _ _ (isoformat_plain t) (uuidStr_plain u)
  have hj1 : jlookup (.obj [(String.mk ("started_at".data),
        .str (String.mk (isoformat t))),
      (String.mk ("id".data), .str (String.mk (uuidStr u)))])
      "started_at" = some (.str (String.mk (isoformat t))) := rfl
  have hj2 : jlookup (.obj [(String.mk ("started_at".data),
        .str (String.mk (isoformat t))),
      (String.mk ("id".data), .str (String.mk (uuidStr u)))])
      "id" = some (.str (String.mk (uuidStr u))) := rfl
  have has1 : asString (.str (String.mk (isoformat t))) =
      some (isoformat t) := rfl
  have has2 : asString (.str (String.mk (uuidStr u))) =
      some (uuidStr u) := rfl
  have hiso : fromisoformat (isoformat t) = some t :=
    fromisoformat_isoformat t ht
  have hup : uuidParse (uuidStr u) = some u := uuidParse_uuidStr u hu
  rw [cursorEncode]
  simp only [cursorDecode, hb64, hutf, hjson, hj1, has1, hiso, hj2, has2,
    hup]

/-! ### Decode failures and the non-strict base64 discard behaviour -/

theorem b64DecodeLoop_invalid_head {c : Char}
    (h : b64Classify c = .invalid) (rest : List Char) (quad : List Nat)
    (pads : Nat) :
    b64DecodeLoop (c :: rest) quad pads = b64DecodeLoop rest quad pads := by
  simp only [b64DecodeLoop, h]

theorem cursorDecode_invalid_cons {c : Char}
    (h : b64Classify c = .invalid) (s : List Char) :
    cursorDecode (c :: s) = cursorDecode s := by
  rw [cursorDecode, cursorDecode, b64DecodeChars, b64DecodeChars,
    b64DecodeLoop_invalid_head h]

theorem cursorDecode_badTimestamp (sa idv : List Char)
    (hsa : ∀ c ∈ sa, plainChar c) (hidv : ∀ c ∈ idv, plainChar c)
    (hbad : fromisoformat sa = none) :
    cursorDecode (b64EncodeBytes (utf8Encode (jsonDumpsPayload sa idv))) =
      none := by
  have hb64 : b64DecodeChars (b64EncodeBytes
      (utf8Encode (jsonDumpsPayload sa idv))) =
      some (utf8Encode (jsonDumpsPayload sa idv)) :=
    b64DecodeChars_encode _ (utf8Encode_lt_256 _)
  have hutf : utf8Decode (utf8Encode (jsonDumpsPayload sa idv)) =
      some (jsonDumpsPayload sa idv) := utf8Decode_encode _
  have hjson := jsonLoads_payload sa idv hsa hidv
  have hj1 : jlookup (.obj [(String.mk ("started_at".data),
        .str (String.mk sa)), (String.mk ("id".data),
        .str (String.mk idv))]) "started_at" =
      some (.str (String.mk sa)) := rfl
  have has1 : asString (Json.str (String.mk sa)) = some sa := rfl
  simp only [cursorDecode, hb64, hutf, hjson, hj1, has1, hbad]

theorem cursorDecode_badId (t : PyDatetime) (idv : List Char)
    (ht : datetimeValidB t = true) (hidv : ∀ c ∈ idv, plainChar c)
    (hbad : uuidParse idv = none) :
    cursorDecode (b64EncodeBytes
      (utf8Encode (jsonDumpsPayload (isoformat t) idv))) = none := by
  have hb64 : b64DecodeChars (b64EncodeBytes
      (utf8Encode (jsonDumpsPayload (isoformat t) idv))) =
      some (utf8Encode (jsonDumpsPayload (isoformat t) idv)) :=
    b64DecodeChars_encode _ (utf8Encode_lt_256 _)
  have hutf : utf8Decode (utf8Encode (jsonDumpsPayload (isoformat t) idv)) =
      some (jsonDumpsPayload (isoformat t) idv) := utf8Decode_encode _
  have hjson := jsonLoads_payload (isoformat t) idv (isoformat_plain t) hidv
  have hj1 : jlookup (.obj [(String.mk ("started_at".data),
        .str (String.mk (isoformat t))), (String.mk ("id".data),
        .str (String.mk idv))]) "started_at" =
      some (.str (String.mk (isoformat t))) := rfl
  have has1 : asString (Json.str (String.mk (isoformat t))) =
      some (isoformat t) := rfl
  have hiso : fromisoformat (isoformat t) = some t :=
    fromisoformat_isoformat t ht
  have hj2 : jlookup (.obj [(String.mk ("started_at".data),
        .str (String.mk (isoformat t))), (String.mk ("id".data),
        .str (String.mk idv))]) "id" =
      some (.str (String.mk idv)) := rfl
  have has2 : asString (Json.str (String.mk idv)) = some idv := rfl
  simp only [cursorDecode, hb64, hutf, hjson, hj1, has1, hiso, hj2, has2,
    hbad]

theorem cursorDecode_missingId (t : PyDatetime)
    (ht : datetimeValidB t = true) :
    cursorDecode (b64EncodeBytes
      (utf8Encode (jsonDumpsStartedOnly (isoformat t)))) = none := by
  have hb64 : b64DecodeChars (b64EncodeBytes
      (utf8Encode (jsonDumpsStartedOnly (isoformat t)))) =
      some (utf8Encode (jsonDumpsStartedOnly (isoformat t))) :=
    b64DecodeChars_encode _ (utf8Encode_lt_256 _)
  have hutf : utf8Decode (utf8Encode (jsonDumpsStartedOnly (isoformat t))) =
      some (jsonDumpsStartedOnly (isoformat t)) := utf8Decode_encode _
  have hjson := jsonLoads_startedOnly (isoformat t) (isoformat_plain t)
  have hj1 : jlookup (.obj [(String.mk ("started_at".data),
        .str (String.mk (isoformat t)))]) "started_at" =
      some (.str (String.mk (isoformat t))) := rfl
  have has1 : asString (Json.str (String.mk (isoformat t))) =
      some (isoformat t) := rfl
  have hiso : fromisoformat (isoformat t) = some t :=
    fromisoformat_isoformat t ht
  have hj2 : jlookup (.obj [(String.mk ("started_at".data),
        .str (String.mk (isoformat t)))]) "id" = (none : Option Json) := rfl
  simp only [cursorDecode, hb64, hutf, hjson, hj1, has1, hiso, hj2]

theorem uuidParse_single_y : uuidParse ("y".data) = none := by
  have h1 : removeAll ("urn:".data) ("y".data) = "y".data :=
    removeAll_of_no_colon _ (by decide) _ (by decide)
  have h2 : removeAll ("uuid:".data) ("y".data) = "y".data :=
    removeAll_of_no_colon _ (by decide) _ (by decide)
  have h3 : stripBraces ("y".data) = "y".data :=
    stripBraces_id _ (by decide)
  rw [uuidParse]
  simp only [h1, h2, h3]
  decide

/-- A concrete datetime used to exercise the cursor codec. -/
def cursorT0 : PyDatetime := ⟨2024, 1, 2, 3, 4, 5, 0, none⟩

/-- C4 counterexample: `'!'` lies outside the base64 alphabet, so a
cursor string carrying it is not valid base64; yet `decode` succeeds on
it — `urlsafe_b64decode` (non-strict, as called here) discards the
invalid character instead of raising, so the claim that decode fails on
input that is not valid base64 is false. -/
theorem cursor_codec_counterexample :
    b64Classify '!' = .invalid ∧
    cursorDecode ('!' :: cursorEncode cursorT0 0) = some (cursorT0, 0) := by
  refine ⟨by decide, ?_⟩
  rw [cursorDecode_invalid_cons (by decide)]
  exact cursorDecode_encode cursorT0 0 (by decide) (by decide)

/-- C4 (amended): encoding a valid timestamp and an id below `2^128`
and decoding yields exactly the pair back; characters outside the
base64 alphabet are discarded by decode rather than rejected (prepending
one never changes the result); and decode returns an error (`none`) on a
payload missing the `id` field, on an unparsable `started_at` timestamp,
and on an unparsable id. -/
theorem cursor_codec :
    (∀ t u, datetimeValidB t = true → u < 2 ^ 128 →
      cursorDecode (cursorEncode t u) = some (t, u)) ∧
    (∀ c s, b64Classify c = .invalid →
      cursorDecode (c :: s) = cursorDecode s) ∧
    (∀ t, datetimeValidB t = true →
      cursorDecode (b64EncodeBytes
        (utf8Encode (jsonDumpsStartedOnly (isoformat t)))) = none) ∧
    (∀ sa idv, (∀ c ∈ sa, plainChar c) → (∀ c ∈ idv, plainChar c) →
      fromisoformat sa = none →
      cursorDecode (b64EncodeBytes (utf8Encode (jsonDumpsPayload sa idv))) =
        none) ∧
    (∀ t idv, datetimeValidB t = true → (∀ c ∈ idv, plainChar c) →
      uuidParse idv = none →
      cursorDecode (b64EncodeBytes
        (utf8Encode (jsonDumpsPayload (isoformat t) idv))) = none) :=
  ⟨fun t u ht hu => cursorDecode_encode t u ht hu,
   fun _ s h => cursorDecode_invalid_cons h s,
   fun t ht => cursorDecode_missingId t ht,
   fun sa idv hsa hidv hbad => cursorDecode_badTimestamp sa idv hsa hidv hbad,
   fun t idv ht hidv hbad => cursorDecode_badId t idv ht hidv hbad⟩

/-- C4 witness: the amended statement evaluated at concrete inputs —
the round-trip at a concrete timestamp and id, the discard of a
prepended `'!'`, and the three failure modes on concrete malformed
payloads. -/
theorem cursor_codec_witness :
    cursorDecode (cursorEncode cursorT0 0) = some (cursorT0, 0) ∧
    cursorDecode ('!' :: cursorEncode cursorT0 0) =
      cursorDecode (cursorEncode cursorT0 0) ∧
    cursorDecode (b64EncodeBytes
      (utf8Encode (jsonDumpsStartedOnly (isoformat cursorT0)))) = none ∧
    cursorDecode (b64EncodeBytes
      (utf8Encode (jsonDumpsPayload ("x".data) ("y".data)))) = none ∧
    cursorDecode (b64EncodeBytes
      (utf8Encode (jsonDumpsPayload (isoformat cursorT0) ("y".data)))) =
      none :=
  ⟨cursor_codec.1 cursorT0 0 (by decide) (by decide),
   cursor_codec.2.1 '!' (cursorEncode cursorT0 0) (by decide),
   cursor_codec.2.2.1 cursorT0 (by decide),
   cursor_codec.2.2.2.1 ("x".data) ("y".data) (by decide) (by decide)
     (by decide),
   cursor_codec.2.2.2.2 cursorT0 ("y".data) (by decide) (by decide)
     uuidParse_single_y⟩

end Gateway
